import Mathlib

/-!
# CoinTracker front end (`src/Frontend/app.jsx`)

A shallow embedding of the React client: the error normaliser `prettyError`, the request
constructors of `api`, the `Transactions` component (state, effect, promise chain, render)
and the `App` component (state, `reload`, `add`, `remove`, `sync`), run as an event-driven
state machine whose events are user actions, settled requests, timers and the passing of time.

How the page runs:
* JavaScript is single threaded: one event is handled to its end before the next one, and the
  state updates of a handler are applied in the order they are written.
* A handler called by a user action is the one of the latest render, and the variables it
  closes over (`input`, `selected`) keep the values of that render while it waits for its
  request.
* The effect of `Transactions` runs after a render in which its `address` prop differs from
  the one before.
* The promise of an `api` call settles once, resolved with the parsed body or rejected with an
  Error; response bodies have the types of the data model (`Address`, `Transaction`).

JavaScript strings are modelled by Lean strings (sequences of Unicode scalar values).
Platform built-ins the source calls (`JSON.parse`, `String.prototype.trim`,
`encodeURIComponent`, `Error.prototype.toString`, string concatenation) are modelled after
ECMAScript; the two that depend on floating point or the calendar (`Number::toString`,
`Date.prototype.toISOString`) are taken as parameters in `Platform`.
-/

namespace CoinTracker

/-! ## JavaScript values -/

/-- A number read from JSON text, kept as the exact decimal that was written:
`(-1)^neg * mant * 10^exp`. -/
structure JsNum where
  neg : Bool
  mant : Nat
  exp : Int

/-- The JavaScript values that `JSON.parse` can produce, and `undefined`
(the value of a missing property). Object members are kept in source order. -/
inductive JsVal where
  | undefined
  | null
  | bool (b : Bool)
  | num (n : JsNum)
  | str (s : String)
  | arr (xs : List JsVal)
  | obj (kvs : List (String × JsVal))

/-- The exceptions the modelled expressions can throw. -/
inductive JsThrow where
  | syntaxError
  | typeError
  | rangeError
deriving DecidableEq

/-- An `Error` object: the failure value of a rejected request. -/
structure JsError where
  name : String
  message : String
deriving DecidableEq

/-- The value of `new Error(text)`, thrown by `api.get`, `api.post` and `api.del` on a
response that is not ok, with the response body as `text`. -/
def newError (text : String) : JsError := ⟨"Error", text⟩

/-- The two built-ins whose result depends on floating point or on the calendar. -/
structure Platform where
  /-- The string form of the double nearest to the decimal (`Number::toString`). -/
  numberToString : JsNum → String
  /-- The value of `new Date(s).toISOString()`; `none` when the date is invalid and
  `toISOString` throws a RangeError. -/
  dateToISOString : String → Option String

/-- The double nearest to the decimal is `+0` or `-0`: the mantissa is zero, or the value is
at most `2^-1075`, half of the least positive double. -/
def JsNum.isZero (n : JsNum) : Bool :=
  decide (n.mant = 0) || (decide (n.exp < 0) && decide (n.mant * 2 ^ 1075 ≤ 10 ^ n.exp.natAbs))

/-- The truthiness of a value (`ToBoolean`). -/
def truthy : JsVal → Bool
  | .undefined => false
  | .null => false
  | .bool b => b
  | .num n => !n.isZero
  | .str s => decide (s ≠ "")
  | .arr _ => true
  | .obj _ => true

/-- The expression `a || b`. -/
def jsOr (a b : JsVal) : JsVal := if truthy a then a else b

/-- The value of the own property `key` of a parsed object: the last member with that key,
`undefined` when there is none. -/
def lookupLast (key : String) (kvs : List (String × JsVal)) : JsVal :=
  match kvs.reverse.find? (fun kv => kv.1 == key) with
  | some kv => kv.2
  | none => .undefined

/-- The expression `j.error`: a TypeError on `null` and `undefined`, the own property of an
object, and `undefined` on arrays, strings, numbers and booleans (none has such a property). -/
def propError : JsVal → Except JsThrow JsVal
  | .undefined => .error .typeError
  | .null => .error .typeError
  | .obj kvs => .ok (lookupLast "error" kvs)
  | _ => .ok .undefined

/-- The value of `String(e)` for an Error object (`Error.prototype.toString`). -/
def errorToString (e : JsError) : String :=
  if e.name = "" then e.message
  else if e.message = "" then e.name
  else e.name ++ ": " ++ e.message

mutual
/-- The string form of a value (`ToString`). An object with an own `toString` member cannot be
converted (the member is not callable) and throws a TypeError; any other object
is `[object Object]`; an array is its elements joined by commas. -/
def jsToString (P : Platform) : JsVal → Except JsThrow String
  | .undefined => .ok "undefined"
  | .null => .ok "null"
  | .bool true => .ok "true"
  | .bool false => .ok "false"
  | .num n => .ok (P.numberToString n)
  | .str s => .ok s
  | .arr xs => jsJoin P xs
  | .obj kvs => if kvs.any (fun kv => kv.1 == "toString") then .error .typeError
      else .ok "[object Object]"
termination_by structural v => v
/-- The value of `Array.prototype.join` with the separator `,`: `null` and `undefined`
elements count as the empty string. -/
def jsJoin (P : Platform) : List JsVal → Except JsThrow String
  | [] => .ok ""
  | x :: rest =>
    match (match x with
           | .undefined => Except.ok ""
           | .null => Except.ok ""
           | _ => jsToString P x : Except JsThrow String) with
    | .error t => .error t
    | .ok a =>
      match rest with
      | [] => .ok a
      | _ :: _ =>
        match jsJoin P rest with
        | .ok b => .ok (a ++ "," ++ b)
        | .error t => .error t
termination_by structural xs => xs
end

/-- The expression `s + v` for a string `s`. -/
def jsConcat (P : Platform) (s : String) (v : JsVal) : Except JsThrow String :=
  match jsToString P v with
  | .ok t => .ok (s ++ t)
  | .error t => .error t

/-! ## `JSON.parse` -/

/-- JSON white space: tab, line feed, carriage return, space. -/
def isJsonWs (c : Char) : Bool :=
  c.toNat = 9 || c.toNat = 10 || c.toNat = 13 || c.toNat = 32

/-- Drop leading JSON white space. -/
def skipWs (cs : List Char) : List Char := cs.dropWhile isJsonWs

/-- The value of a decimal digit. -/
def digitVal (c : Char) : Option Nat :=
  if 48 ≤ c.toNat ∧ c.toNat ≤ 57 then some (c.toNat - 48) else none

/-- The value of a hexadecimal digit. -/
def hexVal (c : Char) : Option Nat :=
  if 48 ≤ c.toNat ∧ c.toNat ≤ 57 then some (c.toNat - 48)
  else if 97 ≤ c.toNat ∧ c.toNat ≤ 102 then some (c.toNat - 87)
  else if 65 ≤ c.toNat ∧ c.toNat ≤ 70 then some (c.toNat - 55)
  else none

/-- The UTF-16 code units of a character. -/
def utf16Units (c : Char) : List Nat :=
  if c.toNat < 0x10000 then [c.toNat]
  else [0xD800 + (c.toNat - 0x10000) / 0x400, 0xDC00 + (c.toNat - 0x10000) % 0x400]

/-- The character of one code unit; a surrogate on its own has none and is shown as U+FFFD. -/
def unitChar (u : Nat) : Char :=
  if 0xD800 ≤ u ∧ u ≤ 0xDFFF then Char.ofNat 0xFFFD else Char.ofNat u

/-- Read code units back as characters, pairing a high surrogate with the low one after it.
`pending` is a high surrogate that was just read and still waits for its low one. -/
def utf16Decode : Option Nat → List Nat → List Char
  | none, [] => []
  | some _, [] => [Char.ofNat 0xFFFD]
  | none, u :: r =>
    if 0xD800 ≤ u ∧ u ≤ 0xDBFF then utf16Decode (some u) r
    else unitChar u :: utf16Decode none r
  | some hi, u :: r =>
    if 0xDC00 ≤ u ∧ u ≤ 0xDFFF then
      Char.ofNat (0x10000 + (hi - 0xD800) * 0x400 + (u - 0xDC00)) :: utf16Decode none r
    else if 0xD800 ≤ u ∧ u ≤ 0xDBFF then Char.ofNat 0xFFFD :: utf16Decode (some u) r
    else Char.ofNat 0xFFFD :: unitChar u :: utf16Decode none r

/-- The rest of a JSON string after its opening quote: the string and what follows the closing
quote. `acc` holds the code units read so far. -/
def parseString : List Char → List Nat → Option (String × List Char)
  | [], _ => none
  | c :: r, acc =>
    if c = '"' then some (String.mk (utf16Decode none acc), r)
    else if c = '\\' then
      match r with
      | [] => none
      | e :: r1 =>
        if e = '"' then parseString r1 (acc ++ [34])
        else if e = '\\' then parseString r1 (acc ++ [92])
        else if e = '/' then parseString r1 (acc ++ [47])
        else if e = 'b' then parseString r1 (acc ++ [8])
        else if e = 'f' then parseString r1 (acc ++ [12])
        else if e = 'n' then parseString r1 (acc ++ [10])
        else if e = 'r' then parseString r1 (acc ++ [13])
        else if e = 't' then parseString r1 (acc ++ [9])
        else if e = 'u' then
          match r1 with
          | h1 :: h2 :: h3 :: h4 :: r2 =>
            match hexVal h1, hexVal h2, hexVal h3, hexVal h4 with
            | some a, some b, some c4, some d =>
              parseString r2 (acc ++ [((a * 16 + b) * 16 + c4) * 16 + d])
            | _, _, _, _ => none
          | _ => none
        else none
    else if c.toNat < 32 then none
    else parseString r (acc ++ utf16Units c)

/-- The leading decimal digits of the input and what follows them. -/
def takeDigits : List Char → List Nat × List Char
  | [] => ([], [])
  | c :: r =>
    match digitVal c with
    | some d => ((takeDigits r).1.cons d, (takeDigits r).2)
    | none => ([], c :: r)

/-- The number written by a list of decimal digits. -/
def digitsToNat (ds : List Nat) : Nat := ds.foldl (fun n d => 10 * n + d) 0

/-- The optional exponent part of a JSON number: `e` or `E`, an optional sign, digits. -/
def parseExponent (cs : List Char) : Option (Int × List Char) :=
  match cs with
  | c :: r =>
    if c = 'e' ∨ c = 'E' then
      match r with
      | s :: r1 =>
        if s = '-' then
          match takeDigits r1 with
          | ([], _) => none
          | (ds, rest) => some (- (digitsToNat ds : Int), rest)
        else if s = '+' then
          match takeDigits r1 with
          | ([], _) => none
          | (ds, rest) => some ((digitsToNat ds : Int), rest)
        else
          match takeDigits r with
          | ([], _) => none
          | (ds, rest) => some ((digitsToNat ds : Int), rest)
      | [] => none
    else some (0, cs)
  | [] => some (0, cs)

/-- The optional fraction part of a JSON number: a dot and at least one digit. -/
def parseFraction (cs : List Char) : Option (List Nat × List Char) :=
  match cs with
  | c :: r =>
    if c = '.' then
      match takeDigits r with
      | ([], _) => none
      | (ds, rest) => some (ds, rest)
    else some ([], cs)
  | [] => some ([], cs)

/-- The digits of a JSON number after its optional sign: an integer part without a leading zero
(unless it is `0` alone), a fraction and an exponent. -/
def parseUnsigned (neg : Bool) (cs : List Char) : Option (JsVal × List Char) :=
  match takeDigits cs with
  | ([], _) => none
  | (d :: ds, r) =>
    if d = 0 ∧ ds ≠ [] then none
    else
      match parseFraction r with
      | none => none
      | some (fs, r1) =>
        match parseExponent r1 with
        | none => none
        | some (ex, r2) =>
          some (.num ⟨neg, digitsToNat (d :: ds ++ fs), ex - (fs.length : Int)⟩, r2)

/-- A JSON number. -/
def parseNumber (cs : List Char) : Option (JsVal × List Char) :=
  match cs with
  | c :: r => if c = '-' then parseUnsigned true r else parseUnsigned false cs
  | [] => none

/-- The input after the characters of `word`, when it starts with them. -/
def dropWord : List Char → List Char → Option (List Char)
  | [], cs => some cs
  | _ :: _, [] => none
  | w :: ws, c :: cs => if c = w then dropWord ws cs else none

/-- The rest of a literal name (`null`, `true`, `false`) after its first letter. -/
def parseLiteral (word : List Char) (v : JsVal) (cs : List Char) : Option (JsVal × List Char) :=
  match dropWord word cs with
  | some r => some (v, r)
  | none => none

mutual
/-- A JSON value, after optional white space, and the input that follows it. -/
def parseValue : Nat → List Char → Option (JsVal × List Char)
  | 0, _ => none
  | fuel + 1, cs =>
    match skipWs cs with
    | [] => none
    | c :: r =>
      if c = 'n' then parseLiteral ['u', 'l', 'l'] .null r
      else if c = 't' then parseLiteral ['r', 'u', 'e'] (.bool true) r
      else if c = 'f' then parseLiteral ['a', 'l', 's', 'e'] (.bool false) r
      else if c = '"' then
        match parseString r [] with
        | some (s, r1) => some (.str s, r1)
        | none => none
      else if c = '[' then
        match skipWs r with
        | [] => none
        | d :: r1 => if d = ']' then some (.arr [], r1) else parseElements fuel (d :: r1) []
      else if c = '{' then
        match skipWs r with
        | [] => none
        | d :: r1 => if d = '}' then some (.obj [], r1) else parseMembers fuel (d :: r1) []
      else parseNumber (c :: r)
/-- The elements of a non-empty JSON array, up to its closing bracket. -/
def parseElements : Nat → List Char → List JsVal → Option (JsVal × List Char)
  | 0, _, _ => none
  | fuel + 1, cs, acc =>
    match parseValue fuel cs with
    | none => none
    | some (v, r) =>
      match skipWs r with
      | [] => none
      | d :: r1 =>
        if d = ',' then parseElements fuel r1 (acc ++ [v])
        else if d = ']' then some (.arr (acc ++ [v]), r1)
        else none
/-- The members of a non-empty JSON object, up to its closing brace. -/
def parseMembers : Nat → List Char → List (String × JsVal) → Option (JsVal × List Char)
  | 0, _, _ => none
  | fuel + 1, cs, acc =>
    match skipWs cs with
    | [] => none
    | q :: r =>
      if q = '"' then
        match parseString r [] with
        | none => none
        | some (k, r1) =>
          match skipWs r1 with
          | [] => none
          | colon :: r2 =>
            if colon = ':' then
              match parseValue fuel r2 with
              | none => none
              | some (v, r3) =>
                match skipWs r3 with
                | [] => none
                | d :: r4 =>
                  if d = ',' then parseMembers fuel r4 (acc ++ [(k, v)])
                  else if d = '}' then some (.obj (acc ++ [(k, v)]), r4)
                  else none
            else none
      else none
end

/-- The platform function `JSON.parse` on a string: one JSON value (ECMA-404) between
optional white space, a SyntaxError otherwise. Each level of nesting and each element
costs at most two units of fuel and at least one character, so the fuel is never the
reason for a SyntaxError (`JSONparse_fuel_enough`). -/
def JSONparse (text : String) : Except JsThrow JsVal :=
  match parseValue (2 * text.toList.length + 2) text.toList with
  | some (v, r) => if skipWs r = [] then .ok v else .error .syntaxError
  | none => .error .syntaxError

/-! ## `prettyError` -/

/-- The function `prettyError(e)`:
`try { const j = JSON.parse(e.message); return j.error || e.message; }`
`catch { return e.message||String(e); }`. -/
def prettyError (e : JsError) : Except JsThrow JsVal :=
  tryCatch
    (do
      let j ← JSONparse e.message
      let f ← propError j
      pure (jsOr f (.str e.message)))
    (fun _ => pure (jsOr (.str e.message) (.str (errorToString e))))


/-! ## `String.prototype.trim` and `encodeURIComponent` -/

/-- ECMAScript white space and line terminators, the characters `trim` strips. -/
def isJsWhiteSpace (c : Char) : Bool :=
  c.toNat = 0x09 || c.toNat = 0x0A || c.toNat = 0x0B || c.toNat = 0x0C || c.toNat = 0x0D
    || c.toNat = 0x20 || c.toNat = 0xA0 || c.toNat = 0x1680
    || (decide (0x2000 ≤ c.toNat) && decide (c.toNat ≤ 0x200A))
    || c.toNat = 0x2028 || c.toNat = 0x2029 || c.toNat = 0x202F || c.toNat = 0x205F
    || c.toNat = 0x3000 || c.toNat = 0xFEFF

/-- The value of `s.trim()`. -/
def jsTrim (s : String) : String :=
  String.mk ((s.toList.dropWhile isJsWhiteSpace).reverse.dropWhile isJsWhiteSpace).reverse

/-- The characters `encodeURIComponent` leaves as they are: letters, digits and
`- _ . ! ~ * ' ( )`. -/
def isUriUnreserved (c : Char) : Bool :=
  (decide (48 ≤ c.toNat) && decide (c.toNat ≤ 57))
    || (decide (65 ≤ c.toNat) && decide (c.toNat ≤ 90))
    || (decide (97 ≤ c.toNat) && decide (c.toNat ≤ 122))
    || c.toNat = 45 || c.toNat = 95 || c.toNat = 46 || c.toNat = 33 || c.toNat = 126
    || c.toNat = 42 || c.toNat = 39 || c.toNat = 40 || c.toNat = 41

/-- The UTF-8 bytes of a code point. -/
def utf8Bytes (n : Nat) : List Nat :=
  if n < 0x80 then [n]
  else if n < 0x800 then [0xC0 + n / 64, 0x80 + n % 64]
  else if n < 0x10000 then [0xE0 + n / 4096, 0x80 + n / 64 % 64, 0x80 + n % 64]
  else [0xF0 + n / 262144, 0x80 + n / 4096 % 64, 0x80 + n / 64 % 64, 0x80 + n % 64]

/-- An upper-case hexadecimal digit. -/
def hexDigitChar (n : Nat) : Char :=
  if n < 10 then Char.ofNat (48 + n) else Char.ofNat (55 + n)

/-- A byte as `%XX`. -/
def percentByte (b : Nat) : List Char := ['%', hexDigitChar (b / 16), hexDigitChar (b % 16)]

/-- One character as `encodeURIComponent` writes it. -/
def encodeChar (c : Char) : List Char :=
  if isUriUnreserved c then [c] else ((utf8Bytes c.toNat).map percentByte).flatten

/-- The value of `encodeURIComponent(s)`. (It throws only on a lone surrogate, which a string
of scalar values does not contain.) -/
def encodeURIComponent (s : String) : String := String.mk ((s.toList.map encodeChar).flatten)

/-- The value of `s.replace(c, r)` for a one-character pattern: the first `c` becomes `r`. -/
def replaceFirstChars (c : Char) (r : List Char) : List Char → List Char
  | [] => []
  | x :: xs => if x = c then r ++ xs else x :: replaceFirstChars c r xs

/-- The value of `s.replace(c, r)` on strings. -/
def jsReplace (c : Char) (r : String) (s : String) : String :=
  String.mk (replaceFirstChars c r.toList s.toList)

/-! ## The data model and `api` -/

/-- One tracked address as the service returns it. -/
structure Address where
  address : String
  balance : String
deriving DecidableEq

/-- One transaction as the service returns it. -/
structure Transaction where
  tx_hash : String
  timestamp : String
  type : String
  amount : String
deriving DecidableEq

/-- The HTTP methods `api` uses. -/
inductive Method where
  | GET
  | POST
  | DELETE
deriving DecidableEq

/-- One call of `fetch`: method, path and, for a POST, the value handed to `JSON.stringify`
as the body. -/
structure Request where
  method : Method
  path : String
  body : Option JsVal

/-- The function `api.get(path)`: `fetch(path)`. -/
def api.get (path : String) : Request := ⟨.GET, path, none⟩

/-- The function `api.post(path, body)`: a POST whose body is `JSON.stringify(body||{})`. -/
def api.post (path : String) (body : JsVal) : Request :=
  ⟨.POST, path, some (jsOr body (.obj []))⟩

/-- The function `api.del(path)`. -/
def api.del (path : String) : Request := ⟨.DELETE, path, none⟩

/-- The function `api.listAddresses()`. -/
def api.listAddresses : Request := api.get "/addresses"

/-- The function `api.addAddress(address)`: the body is the object `{ address }`. -/
def api.addAddress (address : String) : Request :=
  api.post "/addresses" (.obj [("address", .str address)])

/-- The function `api.removeAddress(address)`. -/
def api.removeAddress (address : String) : Request :=
  api.del ("/addresses/" ++ encodeURIComponent address)

/-- The function `api.sync(address)`: `post` is called without a body. -/
def api.sync (address : String) : Request :=
  api.post ("/sync/" ++ encodeURIComponent address) .undefined

/-- The function `api.transactions(address)`. -/
def api.transactions (address : String) : Request :=
  api.get ("/transactions/" ++ encodeURIComponent address)

/-- How the promise of an `api` call settles: resolved with the parsed body, or rejected with
an Error (a response that is not ok, a network failure, a body that is not JSON). -/
inductive Settled (α : Type) where
  | resolved (v : α)
  | rejected (e : JsError)

/-! ## The `Transactions` component -/

/-- The state of `Transactions`: `loading`, `error` and `items`. `error` holds whatever
`prettyError` returned. -/
structure TxState where
  loading : Bool
  error : JsVal
  items : List Transaction

/-- The state of `Transactions` when it mounts: `useState(false)`, `useState('')`,
`useState([])`. -/
def TxState.init : TxState := ⟨false, .str "", []⟩

/-- The effect of `Transactions`, run when `address` changes: the new state and the request
it issues, if any.
`if(!address){ setItems([]); return; } setLoading(true); setError(''); api.transactions(address)…` -/
def Transactions.effect (address : String) (st : TxState) : TxState × Option Request :=
  if address = "" then ({ st with items := [] }, none)
  else ({ st with loading := true, error := .str "" }, some (api.transactions address))

/-- The promise chain of the effect, run when its request settles:
`.then(setItems).catch(e=> setError(prettyError(e))).finally(()=> setLoading(false))`.
The chain holds no reference to the address it was started for. The second component is
the exception the chain ends with when its `catch` handler throws. -/
def Transactions.settled (o : Settled (List Transaction)) (st : TxState) :
    TxState × Option JsThrow :=
  match o with
  | .resolved items => ({ st with items := items, loading := false }, none)
  | .rejected e =>
    match prettyError e with
    | .ok v => ({ st with error := v, loading := false }, none)
    | .error t => ({ st with loading := false }, some t)

/-- One row of the transaction table. -/
structure TxRow where
  key : String
  time : String
  typeClass : String
  type : String
  amount : String
  txHash : String
deriving DecidableEq

/-- What `Transactions` returns. -/
inductive TxView where
  | selectAnAddress
  | loadingTransactions
  | errorLine (error : JsVal)
  | noTransactions
  | table (rows : List TxRow)

/-- The `<tr>` built for one transaction, given `iso`, the value of
`new Date(t.timestamp).toISOString()`: the time cell is
`iso.replace('T',' ').replace('Z',' UTC')`. -/
def Transactions.rowOf (iso : String) (t : Transaction) : TxRow :=
  { key := t.tx_hash
    time := jsReplace 'Z' " UTC" (jsReplace 'T' " " iso)
    typeClass := if t.type = "incoming" then "type-incoming" else "type-outgoing"
    type := t.type
    amount := t.amount
    txHash := t.tx_hash }

/-- The body of `items.map((t)=>…)` for one transaction; `toISOString` throws a RangeError
on an invalid date. -/
def Transactions.row (P : Platform) (t : Transaction) : Except JsThrow TxRow :=
  match P.dateToISOString t.timestamp with
  | none => .error .rangeError
  | some iso => .ok (Transactions.rowOf iso t)

/-- The rows of `items.map((t)=>…)`, in order; the first exception ends the map. -/
def Transactions.rows (P : Platform) : List Transaction → Except JsThrow (List TxRow)
  | [] => .ok []
  | t :: ts =>
    match Transactions.row P t with
    | .error x => .error x
    | .ok r =>
      match Transactions.rows P ts with
      | .error x => .error x
      | .ok rs => .ok (r :: rs)

/-- The render of `Transactions({address})`. -/
def Transactions.render (P : Platform) (address : String) (st : TxState) :
    Except JsThrow TxView :=
  if address = "" then .ok .selectAnAddress
  else if st.loading then .ok .loadingTransactions
  else if truthy st.error then .ok (.errorLine st.error)
  else if st.items.length = 0 then .ok .noTransactions
  else
    match Transactions.rows P st.items with
    | .ok rs => .ok (.table rs)
    | .error x => .error x

/-! ## The `App` component and the event loop -/

/-- A request in flight, with what the code waiting for it holds: `reload`, `add` and the
effect of `Transactions` hold nothing; `remove` and `sync` hold their argument and the value
`selected` had in the render whose handler was called. -/
inductive Pending where
  | reload
  | add
  | remove (address : String) (selected : String)
  | sync (address : String) (selected : String)
  | transactions (address : String)
deriving DecidableEq

/-- The page: the state of `App` (`addresses`, `selected`, `status`, `input`), the state of
its `Transactions` child, and the environment: the clock in milliseconds, every request
issued so far, the requests in flight, the due times of the pending `setTimeout`
callbacks (each is `()=>setStatus('')`), and the exceptions no handler caught. -/
structure World where
  addresses : List Address
  selected : String
  status : String
  input : String
  tx : TxState
  now : Nat
  sent : List Request
  pending : List Pending
  timers : List Nat
  unhandled : List JsThrow

/-- The state setter `setStatus`. -/
def setStatus (s : String) (w : World) : World := { w with status := s }

/-- The state setter `setAddresses`. -/
def setAddresses (l : List Address) (w : World) : World := { w with addresses := l }

/-- The state setter `setSelected`. -/
def setSelected (a : String) (w : World) : World := { w with selected := a }

/-- The state setter `setInput`. -/
def setInput (s : String) (w : World) : World := { w with input := s }

/-- Issue a request and leave `k` waiting for it. -/
def issue (r : Request) (k : Pending) (w : World) : World :=
  { w with sent := w.sent ++ [r], pending := w.pending ++ [k] }

/-- The call `setTimeout(()=>setStatus(''), delay)`. Nothing in the source keeps the timer id
or calls `clearTimeout`. -/
def setTimeout (delay : Nat) (w : World) : World :=
  { w with timers := w.timers ++ [w.now + delay] }

/-- An exception that leaves a promise chain or an async function with no handler. -/
def unhandledRejection (t : JsThrow) (w : World) : World :=
  { w with unhandled := w.unhandled ++ [t] }

/-- The function `reload`, up to the request:
`setStatus('Loading addresses…'); api.listAddresses()…`. -/
def reload (w : World) : World :=
  issue api.listAddresses .reload (setStatus "Loading addresses…" w)

/-- The promise chain of `reload`, run when its request settles:
`.then(setAddresses).catch(e => setStatus('Error: ' + prettyError(e))).finally(() => setStatus(''))`.
The `finally` callback runs after either branch, also when the `catch` handler throws. -/
def reloadSettled (P : Platform) (o : Settled (List Address)) (w : World) : World :=
  match o with
  | .resolved l => setStatus "" (setAddresses l w)
  | .rejected e =>
    match prettyError e >>= jsConcat P "Error: " with
    | .ok s => setStatus "" (setStatus s w)
    | .error t => unhandledRejection t (setStatus "" w)

/-- The function `add`, up to the `await`:
`if(!input.trim()) return; setStatus('Adding…'); … await api.addAddress(input.trim())`. -/
def add (w : World) : World :=
  if jsTrim w.input = "" then w
  else issue (api.addAddress (jsTrim w.input)) .add (setStatus "Adding…" w)

/-- The rest of `add`, run when its request settles: `setInput(''); reload();` in the `try`,
`catch(e){ setStatus('Error: ' + prettyError(e)); }`. -/
def addSettled (P : Platform) (o : Settled Unit) (w : World) : World :=
  match o with
  | .resolved _ => reload (setInput "" w)
  | .rejected e =>
    match prettyError e >>= jsConcat P "Error: " with
    | .ok s => setStatus s w
    | .error t => unhandledRejection t w

/-- The function `remove(address)`, up to the `await`:
`setStatus('Removing…'); … await api.removeAddress(address)`. -/
def remove (address : String) (w : World) : World :=
  issue (api.removeAddress address) (.remove address w.selected) (setStatus "Removing…" w)

/-- The rest of `remove`, run when its request settles:
`if(selected===address) setSelected(''); reload();` in the `try`,
`catch(e){ setStatus('Error: ' + prettyError(e)); }`. -/
def removeSettled (P : Platform) (address selected : String) (o : Settled Unit) (w : World) :
    World :=
  match o with
  | .resolved _ => reload (if selected = address then setSelected "" w else w)
  | .rejected e =>
    match prettyError e >>= jsConcat P "Error: " with
    | .ok s => setStatus s w
    | .error t => unhandledRejection t w

/-- The function `sync(address)`, up to the `await`:
`setStatus('Syncing…'); … await api.sync(address)`. -/
def sync (address : String) (w : World) : World :=
  issue (api.sync address) (.sync address w.selected) (setStatus "Syncing…" w)

/-- The rest of `sync`, run when its request settles:
`reload(); if(selected===address) setSelected(address); setStatus('Synced ✓');`
`setTimeout(()=>setStatus(''), 800);` in the `try`,
`catch(e){ setStatus('Sync failed: ' + prettyError(e)); }`. -/
def syncSettled (P : Platform) (address selected : String) (o : Settled Unit) (w : World) :
    World :=
  match o with
  | .resolved _ =>
    let w1 := reload w
    let w2 := if selected = address then setSelected address w1 else w1
    setTimeout 800 (setStatus "Synced ✓" w2)
  | .rejected e =>
    match prettyError e >>= jsConcat P "Sync failed: " with
    | .ok s => setStatus s w
    | .error t => unhandledRejection t w

/-- The effect of `Transactions` on the page: its state changes and its request, if any,
is issued. -/
def runEffect (w : World) : World :=
  match (Transactions.effect w.selected w.tx).2 with
  | none => { w with tx := (Transactions.effect w.selected w.tx).1 }
  | some r =>
    issue r (.transactions w.selected) { w with tx := (Transactions.effect w.selected w.tx).1 }

/-- The render that follows a handler: the effect of `Transactions` runs when its `address`
prop, the selection, is not what it was before. -/
def commit (before : String) (w : World) : World :=
  if w.selected = before then w else runEffect w

/-- The promise chain of `Transactions` on the page. -/
def transactionsSettled (o : Settled (List Transaction)) (w : World) : World :=
  { w with tx := (Transactions.settled o w.tx).1,
           unhandled := w.unhandled ++ (Transactions.settled o w.tx).2.toList }

/-- The page after `root.render(<App />)`: the initial state, and the effect
`useEffect(()=>{ reload(); }, [])`. -/
def World.init : World :=
  reload
    { addresses := [], selected := "", status := "", input := "", tx := TxState.init,
      now := 0, sent := [], pending := [], timers := [], unhandled := [] }

/-- What a settled request carries. -/
inductive Response where
  | addresses (l : List Address)
  | transactions (l : List Transaction)
  | ack
  | failure (e : JsError)

/-- What can happen to the page. -/
inductive Event where
  | typeInput (text : String)
  | clickAdd
  | clickView (address : String)
  | clickSync (address : String)
  | clickRemove (address : String)
  | settle (i : Nat) (r : Response)
  | timer (i : Nat)
  | elapse (ms : Nat)

/-- The code waiting for a settled request, run on its response; `none` when the response is
not one the request can get. -/
def resume (P : Platform) (k : Pending) (r : Response) (w : World) : Option World :=
  match k, r with
  | .reload, .addresses l => some (reloadSettled P (.resolved l) w)
  | .reload, .failure e => some (reloadSettled P (.rejected e) w)
  | .add, .ack => some (addSettled P (.resolved ()) w)
  | .add, .failure e => some (addSettled P (.rejected e) w)
  | .remove a s, .ack => some (removeSettled P a s (.resolved ()) w)
  | .remove a s, .failure e => some (removeSettled P a s (.rejected e) w)
  | .sync a s, .ack => some (syncSettled P a s (.resolved ()) w)
  | .sync a s, .failure e => some (syncSettled P a s (.rejected e) w)
  | .transactions _, .transactions l => some (transactionsSettled (.resolved l) w)
  | .transactions _, .failure e => some (transactionsSettled (.rejected e) w)
  | _, _ => none

/-- One event: the handler runs to its end, then the page renders. `none` when the event
cannot happen: no such request in flight, no such timer, or a timer that is not due. -/
def step (P : Platform) (w : World) : Event → Option World
  | .typeInput text => some (setInput text w)
  | .clickAdd => some (add w)
  | .clickView a => some (commit w.selected (setSelected a w))
  | .clickSync a => some (sync a w)
  | .clickRemove a => some (remove a w)
  | .settle i r =>
    match w.pending[i]? with
    | none => none
    | some k =>
      match resume P k r { w with pending := w.pending.eraseIdx i } with
      | none => none
      | some w1 => some (commit w.selected w1)
  | .timer i =>
    match w.timers[i]? with
    | none => none
    | some due =>
      if due ≤ w.now then some (setStatus "" { w with timers := w.timers.eraseIdx i })
      else none
  | .elapse ms => some { w with now := w.now + ms }

/-- A sequence of events, in order. -/
def run (P : Platform) (w : World) : List Event → Option World
  | [] => some w
  | ev :: evs =>
    match step P w ev with
    | none => none
    | some w1 => run P w1 evs

/-! ## The specification of `prettyError` -/

/-- A value counts as empty when it is missing, `null`, `false`, zero or the empty string. -/
def isEmptyField : JsVal → Bool
  | .undefined => true
  | .null => true
  | .bool b => !b
  | .num n => n.isZero
  | .str s => decide (s = "")
  | .arr _ => false
  | .obj _ => false

/-- The message field of a failure text, in the words of the specification: the text parses as
a structured object that contains a non-empty field `error`. -/
def messageField (text : String) : Option JsVal :=
  match JSONparse text with
  | .ok (.obj kvs) =>
    if isEmptyField (lookupLast "error" kvs) then none else some (lookupLast "error" kvs)
  | _ => none

/-- The generic fallback: the string form of an Error that has no message. -/
def genericFallback : String := "Error"

/-- The three tiers of the specification: the message field when there is one, otherwise the
raw text when there is text, otherwise the generic fallback. -/
def prettyErrorSpec (text : String) : JsVal :=
  match messageField text with
  | some m => m
  | none => if text = "" then .str genericFallback else .str text

/-- A value is a string. -/
def JsVal.isString : JsVal → Bool
  | .str _ => true
  | _ => false

/-! ## Auxiliary definitions for the statements -/

/-- The value `prettyError` returns (it never throws, see `prettyError_never_throws`). -/
def prettyErrorValue (e : JsError) : JsVal :=
  match prettyError e with
  | .ok v => v
  | .error _ => .undefined

/-- The response that settles `GET /addresses`. -/
def addressesResponse : Settled (List Address) → Response
  | .resolved l => .addresses l
  | .rejected e => .failure e

/-- The response that settles `GET /transactions/…`. -/
def transactionsResponse : Settled (List Transaction) → Response
  | .resolved l => .transactions l
  | .rejected e => .failure e

/-- The items after two responses were applied in the order `first`, `second` to a component
holding `before`: those of the last response that succeeded. -/
def lastItems (before : List Transaction) (first second : Settled (List Transaction)) :
    List Transaction :=
  match second, first with
  | .resolved l, _ => l
  | .rejected _, .resolved l => l
  | .rejected _, .rejected _ => before

/-- The error after the effect cleared it and two responses were applied in the order
`first`, `second`: that of the last response that failed, the empty string when none did. -/
def lastError (first second : Settled (List Transaction)) : JsVal :=
  match second, first with
  | .rejected e, _ => prettyErrorValue e
  | .resolved _, .rejected e => prettyErrorValue e
  | .resolved _, .resolved _ => .str ""

/-- A platform for the worked examples. It agrees with ECMAScript on the inputs they use: whole
numbers below `2^53` written without fraction or exponent, the instant
`2024-01-01T00:00:00Z`, and the string `not a date`, which is no date. -/
def examplePlatform : Platform where
  numberToString n :=
    if n.mant = 0 then "0" else if n.neg then "-" ++ toString n.mant else toString n.mant
  dateToISOString s := if s = "2024-01-01T00:00:00Z" then some "2024-01-01T00:00:00.000Z" else none

/-- The page of the scenario of the specification: `GET /addresses` has returned the one
address `1A1zP1...` with balance `0.5`, and nothing is in flight. -/
def examplePage : World :=
  { World.init with addresses := [⟨"1A1zP1...", "0.5"⟩], status := "", pending := [] }

/-! ## Theorems: the fuel of `JSONparse` -/

theorem skipWs_length_le (cs : List Char) : (skipWs cs).length ≤ cs.length :=
  (List.dropWhile_sublist _).length_le

theorem takeDigits_length (cs : List Char) :
    (takeDigits cs).1.length + (takeDigits cs).2.length = cs.length := by
  induction cs with
  | nil => rfl
  | cons c r ih =>
    unfold takeDigits
    cases h : digitVal c with
    | none => simp
    | some d => simp; omega

theorem dropWord_length (word cs r : List Char) (h : dropWord word cs = some r) :
    r.length ≤ cs.length := by
  induction word generalizing cs with
  | nil =>
    simp only [dropWord, Option.some.injEq] at h
    subst h
    exact Nat.le_refl _
  | cons w ws ih =>
    cases cs with
    | nil => simp [dropWord] at h
    | cons c cs =>
      simp only [dropWord] at h
      by_cases hc : c = w
      · simp only [hc, if_true] at h
        have := ih cs h
        simp only [List.length_cons]
        omega
      · simp [hc] at h

theorem parseString_length (cs : List Char) (acc : List Nat) :
    ∀ (s : String) (r : List Char), parseString cs acc = some (s, r) → r.length < cs.length := by
  induction cs, acc using parseString.induct with
  | case1 acc => intro s r h; simp [parseString] at h
  | case2 r0 acc =>
    intro s r h
    unfold parseString at h
    simp only [if_true, Option.some.injEq, Prod.mk.injEq] at h
    rw [← h.2]
    simp
  | case3 acc _ => intro s r h; unfold parseString at h; simp at h
  | case4 acc r1 _ ih =>
    intro s r h
    have := ih s r (by unfold parseString at h; simpa using h)
    simp only [List.length_cons]
    omega
  | case5 acc r1 _ _ ih =>
    intro s r h
    have := ih s r (by unfold parseString at h; simpa using h)
    simp only [List.length_cons]
    omega
  | case6 acc r1 _ _ _ ih =>
    intro s r h
    have := ih s r (by unfold parseString at h; simpa using h)
    simp only [List.length_cons]
    omega
  | case7 acc r1 _ _ _ _ ih =>
    intro s r h
    have := ih s r (by unfold parseString at h; simpa using h)
    simp only [List.length_cons]
    omega
  | case8 acc r1 _ _ _ _ _ ih =>
    intro s r h
    have := ih s r (by unfold parseString at h; simpa using h)
    simp only [List.length_cons]
    omega
  | case9 acc r1 _ _ _ _ _ _ ih =>
    intro s r h
    have := ih s r (by unfold parseString at h; simpa using h)
    simp only [List.length_cons]
    omega
  | case10 acc r1 _ _ _ _ _ _ _ ih =>
    intro s r h
    have := ih s r (by unfold parseString at h; simpa using h)
    simp only [List.length_cons]
    omega
  | case11 acc r1 _ _ _ _ _ _ _ _ ih =>
    intro s r h
    have := ih s r (by unfold parseString at h; simpa using h)
    simp only [List.length_cons]
    omega
  | case12 acc h1 h2 h3 h4 r2 a b c4 d e4 e3 e2 e1 _ _ _ _ _ _ _ _ _ ih =>
    intro s r h
    have := ih s r (by unfold parseString at h; simpa [e1, e2, e3, e4] using h)
    simp only [List.length_cons]
    omega
  | case13 acc h1 h2 h3 h4 r2 hno _ _ _ _ _ _ _ _ _ =>
    intro s r h
    exfalso
    unfold parseString at h
    simp only [Char.reduceEq, if_false, if_true] at h
    cases e1 : hexVal h1 with
    | none => simp [e1] at h
    | some a =>
      cases e2 : hexVal h2 with
      | none => simp [e1, e2] at h
      | some b =>
        cases e3 : hexVal h3 with
        | none => simp [e1, e2, e3] at h
        | some c =>
          cases e4 : hexVal h4 with
          | none => simp [e1, e2, e3, e4] at h
          | some d => exact hno a b c d e1 e2 e3 e4
  | case14 acc r1 hno _ _ _ _ _ _ _ _ _ =>
    intro s r h
    exfalso
    match r1, hno with
    | [], _ => unfold parseString at h; simp at h
    | [_], _ => unfold parseString at h; simp at h
    | [_, _], _ => unfold parseString at h; simp at h
    | [_, _, _], _ => unfold parseString at h; simp at h
    | a :: b :: c :: d :: r2, hno => exact hno a b c d r2 rfl
  | case15 acc e r1 n1 n2 n3 n4 n5 n6 n7 n8 n9 _ =>
    intro s r h
    unfold parseString at h
    simp [n1, n2, n3, n4, n5, n6, n7, n8, n9] at h
  | case16 c r0 acc n1 n2 hlt =>
    intro s r h
    unfold parseString at h
    simp [n1, n2, hlt] at h
  | case17 c r0 acc n1 n2 hge ih =>
    intro s r h
    have := ih s r (by unfold parseString at h; simpa [n1, n2, hge] using h)
    simp only [List.length_cons]
    omega

theorem takeDigits_rest_le (cs : List Char) : (takeDigits cs).2.length ≤ cs.length := by
  have := takeDigits_length cs
  omega

theorem digits_branch_length (x : List Char) (f : List Nat → Int) (ex : Int) (r : List Char)
    (h : (match takeDigits x with
          | ([], _) => none
          | (ds, rest) => some (f ds, rest)) = some (ex, r)) : r.length ≤ x.length := by
  have hl := takeDigits_rest_le x
  cases hd : takeDigits x with
  | mk ds rest =>
    rw [hd] at h hl
    cases ds with
    | nil => simp at h
    | cons d ds =>
      simp only [Option.some.injEq, Prod.mk.injEq] at h
      rw [← h.2]
      exact hl

theorem parseExponent_length (cs : List Char) (ex : Int) (r : List Char)
    (h : parseExponent cs = some (ex, r)) : r.length ≤ cs.length := by
  unfold parseExponent at h
  cases cs with
  | nil =>
    simp only [Option.some.injEq, Prod.mk.injEq] at h
    rw [← h.2]
  | cons c r0 =>
    simp only at h
    by_cases hc : c = 'e' ∨ c = 'E'
    · simp only [hc, if_true] at h
      cases r0 with
      | nil => simp at h
      | cons s r1 =>
        simp only at h
        by_cases h1 : s = '-'
        · simp only [h1, if_true] at h
          have := digits_branch_length r1 _ ex r h
          simp only [List.length_cons]
          omega
        · by_cases h2 : s = '+'
          · simp only [h1, h2, if_true, if_false] at h
            have := digits_branch_length r1 _ ex r h
            simp only [List.length_cons]
            omega
          · simp only [h1, h2, if_false] at h
            have := digits_branch_length (s :: r1) _ ex r h
            simp only [List.length_cons] at this ⊢
            omega
    · simp only [hc, if_false, Option.some.injEq, Prod.mk.injEq] at h
      rw [← h.2]

theorem parseFraction_length (cs : List Char) (fs : List Nat) (r : List Char)
    (h : parseFraction cs = some (fs, r)) : r.length ≤ cs.length := by
  unfold parseFraction at h
  cases cs with
  | nil =>
    simp only [Option.some.injEq, Prod.mk.injEq] at h
    rw [← h.2]
  | cons c r0 =>
    simp only at h
    by_cases hc : c = '.'
    · simp only [hc, if_true] at h
      have hl := takeDigits_length r0
      cases hd : takeDigits r0 with
      | mk ds rest =>
        rw [hd] at h hl
        cases ds with
        | nil => simp at h
        | cons d ds =>
          simp only [Option.some.injEq, Prod.mk.injEq] at h
          rw [← h.2]
          simp only [List.length_cons] at hl ⊢
          omega
    · simp only [hc, if_false, Option.some.injEq, Prod.mk.injEq] at h
      rw [← h.2]

theorem parseUnsigned_length (neg : Bool) (cs : List Char) (v : JsVal) (r : List Char)
    (h : parseUnsigned neg cs = some (v, r)) : r.length < cs.length := by
  unfold parseUnsigned at h
  have hl := takeDigits_length cs
  cases hd : takeDigits cs with
  | mk ds rest =>
    rw [hd] at h hl
    cases ds with
    | nil => simp at h
    | cons d ds =>
      simp only at h
      by_cases hz : d = 0 ∧ ds ≠ []
      · simp [hz] at h
      · simp only [hz, if_false] at h
        cases hf : parseFraction rest with
        | none => simp [hf] at h
        | some fr =>
          obtain ⟨fs, r1⟩ := fr
          simp only [hf] at h
          cases he : parseExponent r1 with
          | none => simp [he] at h
          | some er =>
            obtain ⟨ex, r2⟩ := er
            simp only [he, Option.some.injEq, Prod.mk.injEq] at h
            have h1 := parseFraction_length rest fs r1 hf
            have h2 := parseExponent_length r1 ex r2 he
            rw [← h.2]
            simp only [List.length_cons] at hl
            omega

theorem parseNumber_length (cs : List Char) (v : JsVal) (r : List Char)
    (h : parseNumber cs = some (v, r)) : r.length < cs.length := by
  unfold parseNumber at h
  cases cs with
  | nil => simp at h
  | cons c r0 =>
    simp only at h
    by_cases hc : c = '-'
    · simp only [hc, if_true] at h
      have := parseUnsigned_length true r0 v r h
      simp only [List.length_cons]
      omega
    · simp only [hc, if_false] at h
      exact parseUnsigned_length false (c :: r0) v r h

theorem parseLiteral_length (word : List Char) (v0 : JsVal) (cs : List Char) (v : JsVal)
    (r : List Char) (h : parseLiteral word v0 cs = some (v, r)) : r.length ≤ cs.length := by
  unfold parseLiteral at h
  cases hd : dropWord word cs with
  | none => simp [hd] at h
  | some r0 =>
    simp only [hd, Option.some.injEq, Prod.mk.injEq] at h
    rw [← h.2]
    exact dropWord_length word cs r0 hd

theorem succ_of_le {n f : Nat} (h : n + 1 ≤ f) : ∃ f1, f = f1 + 1 :=
  ⟨f - 1, by omega⟩

theorem parse_fuel (g : Nat) :
    (∀ cs v r, parseValue g cs = some (v, r) →
      r.length < cs.length ∧ ∀ f, 2 * cs.length + 2 ≤ f → parseValue f cs = some (v, r))
    ∧ (∀ cs acc v r, parseElements g cs acc = some (v, r) →
      r.length < cs.length
        ∧ ∀ f, 2 * cs.length + 3 ≤ f → parseElements f cs acc = some (v, r))
    ∧ (∀ cs acc v r, parseMembers g cs acc = some (v, r) →
      r.length < cs.length
        ∧ ∀ f, 2 * cs.length + 3 ≤ f → parseMembers f cs acc = some (v, r)) := by
  induction g with
  | zero =>
    refine ⟨?_, ?_, ?_⟩
    · intro cs v r h
      simp [parseValue] at h
    · intro cs acc v r h
      simp [parseElements] at h
    · intro cs acc v r h
      simp [parseMembers] at h
  | succ g ih =>
    obtain ⟨ihV, ihE, ihM⟩ := ih
    refine ⟨?_, ?_, ?_⟩
    · intro cs v r h
      rw [parseValue] at h
      have hws := skipWs_length_le cs
      cases hs : skipWs cs with
      | nil => simp [hs] at h
      | cons c r0 =>
        rw [hs] at hws
        simp only [hs] at h
        simp only [List.length_cons] at hws
        by_cases c1 : c = 'n'
        · rw [if_pos c1] at h
          have hl := parseLiteral_length _ _ _ _ _ h
          refine ⟨by omega, fun f hf => ?_⟩
          obtain ⟨f1, rfl⟩ := succ_of_le (Nat.le_trans (by omega) hf : 0 + 1 ≤ f)
          rw [parseValue]
          simp only [hs]
          rw [if_pos c1]
          exact h
        · rw [if_neg c1] at h
          by_cases c2 : c = 't'
          · rw [if_pos c2] at h
            have hl := parseLiteral_length _ _ _ _ _ h
            refine ⟨by omega, fun f hf => ?_⟩
            obtain ⟨f1, rfl⟩ := succ_of_le (Nat.le_trans (by omega) hf : 0 + 1 ≤ f)
            rw [parseValue]
            simp only [hs]
            rw [if_neg c1, if_pos c2]
            exact h
          · rw [if_neg c2] at h
            by_cases c3 : c = 'f'
            · rw [if_pos c3] at h
              have hl := parseLiteral_length _ _ _ _ _ h
              refine ⟨by omega, fun f hf => ?_⟩
              obtain ⟨f1, rfl⟩ := succ_of_le (Nat.le_trans (by omega) hf : 0 + 1 ≤ f)
              rw [parseValue]
              simp only [hs]
              rw [if_neg c1, if_neg c2, if_pos c3]
              exact h
            · rw [if_neg c3] at h
              by_cases c4 : c = '"'
              · rw [if_pos c4] at h
                have hl : r.length < r0.length := by
                  cases hp : parseString r0 [] with
                  | none => simp [hp] at h
                  | some sr =>
                    obtain ⟨s0, r1⟩ := sr
                    simp only [hp, Option.some.injEq, Prod.mk.injEq] at h
                    rw [← h.2]
                    exact parseString_length r0 [] s0 r1 hp
                refine ⟨by omega, fun f hf => ?_⟩
                obtain ⟨f1, rfl⟩ := succ_of_le (Nat.le_trans (by omega) hf : 0 + 1 ≤ f)
                rw [parseValue]
                simp only [hs]
                rw [if_neg c1, if_neg c2, if_neg c3, if_pos c4]
                exact h
              · rw [if_neg c4] at h
                by_cases c5 : c = '['
                · rw [if_pos c5] at h
                  have hws2 := skipWs_length_le r0
                  cases hs2 : skipWs r0 with
                  | nil => simp [hs2] at h
                  | cons d r1 =>
                    rw [hs2] at hws2
                    simp only [hs2] at h
                    simp only [List.length_cons] at hws2
                    by_cases hd : d = ']'
                    · rw [if_pos hd] at h
                      simp only [Option.some.injEq, Prod.mk.injEq] at h
                      refine ⟨by rw [← h.2]; omega, fun f hf => ?_⟩
                      obtain ⟨f1, rfl⟩ := succ_of_le (Nat.le_trans (by omega) hf : 0 + 1 ≤ f)
                      rw [parseValue]
                      simp only [hs]
                      rw [if_neg c1, if_neg c2, if_neg c3, if_neg c4, if_pos c5]
                      simp only [hs2]
                      rw [if_pos hd]
                      simp only [Option.some.injEq, Prod.mk.injEq]
                      exact h
                    · rw [if_neg hd] at h
                      obtain ⟨hl, hfuel⟩ := ihE (d :: r1) [] v r h
                      simp only [List.length_cons] at hl hfuel
                      refine ⟨by omega, fun f hf => ?_⟩
                      obtain ⟨f1, rfl⟩ := succ_of_le (Nat.le_trans (by omega) hf : 0 + 1 ≤ f)
                      rw [parseValue]
                      simp only [hs]
                      rw [if_neg c1, if_neg c2, if_neg c3, if_neg c4, if_pos c5]
                      simp only [hs2]
                      rw [if_neg hd]
                      exact hfuel f1 (by omega)
                · rw [if_neg c5] at h
                  by_cases c6 : c = '{'
                  · rw [if_pos c6] at h
                    have hws2 := skipWs_length_le r0
                    cases hs2 : skipWs r0 with
                    | nil => simp [hs2] at h
                    | cons d r1 =>
                      rw [hs2] at hws2
                      simp only [hs2] at h
                      simp only [List.length_cons] at hws2
                      by_cases hd : d = '}'
                      · rw [if_pos hd] at h
                        simp only [Option.some.injEq, Prod.mk.injEq] at h
                        refine ⟨by rw [← h.2]; omega, fun f hf => ?_⟩
                        obtain ⟨f1, rfl⟩ := succ_of_le (Nat.le_trans (by omega) hf : 0 + 1 ≤ f)
                        rw [parseValue]
                        simp only [hs]
                        rw [if_neg c1, if_neg c2, if_neg c3, if_neg c4, if_neg c5, if_pos c6]
                        simp only [hs2]
                        rw [if_pos hd]
                        simp only [Option.some.injEq, Prod.mk.injEq]
                        exact h
                      · rw [if_neg hd] at h
                        obtain ⟨hl, hfuel⟩ := ihM (d :: r1) [] v r h
                        simp only [List.length_cons] at hl hfuel
                        refine ⟨by omega, fun f hf => ?_⟩
                        obtain ⟨f1, rfl⟩ := succ_of_le (Nat.le_trans (by omega) hf : 0 + 1 ≤ f)
                        rw [parseValue]
                        simp only [hs]
                        rw [if_neg c1, if_neg c2, if_neg c3, if_neg c4, if_neg c5, if_pos c6]
                        simp only [hs2]
                        rw [if_neg hd]
                        exact hfuel f1 (by omega)
                  · rw [if_neg c6] at h
                    have hl := parseNumber_length _ _ _ h
                    simp only [List.length_cons] at hl
                    refine ⟨by omega, fun f hf => ?_⟩
                    obtain ⟨f1, rfl⟩ := succ_of_le (Nat.le_trans (by omega) hf : 0 + 1 ≤ f)
                    rw [parseValue]
                    simp only [hs]
                    rw [if_neg c1, if_neg c2, if_neg c3, if_neg c4, if_neg c5, if_neg c6]
                    exact h
    · intro cs acc v r h
      rw [parseElements] at h
      cases hv : parseValue g cs with
      | none => simp [hv] at h
      | some vr =>
        obtain ⟨v1, r0⟩ := vr
        simp only [hv] at h
        obtain ⟨hl1, hf1⟩ := ihV cs v1 r0 hv
        have hws := skipWs_length_le r0
        cases hs : skipWs r0 with
        | nil => simp [hs] at h
        | cons d r1 =>
          rw [hs] at hws
          simp only [hs] at h
          simp only [List.length_cons] at hws
          by_cases hd : d = ','
          · rw [if_pos hd] at h
            obtain ⟨hl2, hf2⟩ := ihE r1 (acc ++ [v1]) v r h
            refine ⟨by omega, fun f hf => ?_⟩
            obtain ⟨f1, rfl⟩ := succ_of_le (Nat.le_trans (by omega) hf : 0 + 1 ≤ f)
            rw [parseElements]
            simp only [hf1 f1 (by omega), hs]
            rw [if_pos hd]
            exact hf2 f1 (by omega)
          · rw [if_neg hd] at h
            by_cases hd2 : d = ']'
            · rw [if_pos hd2] at h
              simp only [Option.some.injEq, Prod.mk.injEq] at h
              refine ⟨by rw [← h.2]; omega, fun f hf => ?_⟩
              obtain ⟨f1, rfl⟩ := succ_of_le (Nat.le_trans (by omega) hf : 0 + 1 ≤ f)
              rw [parseElements]
              simp only [hf1 f1 (by omega), hs]
              rw [if_neg hd, if_pos hd2]
              simp only [Option.some.injEq, Prod.mk.injEq]
              exact h
            · rw [if_neg hd2] at h
              simp at h
    · intro cs acc v r h
      rw [parseMembers] at h
      have hws := skipWs_length_le cs
      cases hs : skipWs cs with
      | nil => simp [hs] at h
      | cons q r0 =>
        rw [hs] at hws
        simp only [hs] at h
        simp only [List.length_cons] at hws
        by_cases hq : q = '"'
        · rw [if_pos hq] at h
          cases hp : parseString r0 [] with
          | none => simp [hp] at h
          | some kr =>
            obtain ⟨k, r1⟩ := kr
            simp only [hp] at h
            have hlk := parseString_length r0 [] k r1 hp
            have hws1 := skipWs_length_le r1
            cases hs1 : skipWs r1 with
            | nil => simp [hs1] at h
            | cons colon r2 =>
              rw [hs1] at hws1
              simp only [hs1] at h
              simp only [List.length_cons] at hws1
              by_cases hc : colon = ':'
              · rw [if_pos hc] at h
                cases hv : parseValue g r2 with
                | none => simp [hv] at h
                | some vr =>
                  obtain ⟨v1, r3⟩ := vr
                  simp only [hv] at h
                  obtain ⟨hl1, hf1⟩ := ihV r2 v1 r3 hv
                  have hws3 := skipWs_length_le r3
                  cases hs3 : skipWs r3 with
                  | nil => simp [hs3] at h
                  | cons d r4 =>
                    rw [hs3] at hws3
                    simp only [hs3] at h
                    simp only [List.length_cons] at hws3
                    by_cases hd : d = ','
                    · rw [if_pos hd] at h
                      obtain ⟨hl2, hf2⟩ := ihM r4 (acc ++ [(k, v1)]) v r h
                      refine ⟨by omega, fun f hf => ?_⟩
                      obtain ⟨f1, rfl⟩ := succ_of_le (Nat.le_trans (by omega) hf : 0 + 1 ≤ f)
                      rw [parseMembers]
                      simp only [hs]
                      rw [if_pos hq]
                      simp only [hp, hs1]
                      rw [if_pos hc]
                      simp only [hf1 f1 (by omega), hs3]
                      rw [if_pos hd]
                      exact hf2 f1 (by omega)
                    · rw [if_neg hd] at h
                      by_cases hd2 : d = '}'
                      · rw [if_pos hd2] at h
                        simp only [Option.some.injEq, Prod.mk.injEq] at h
                        refine ⟨by rw [← h.2]; omega, fun f hf => ?_⟩
                        obtain ⟨f1, rfl⟩ := succ_of_le (Nat.le_trans (by omega) hf : 0 + 1 ≤ f)
                        rw [parseMembers]
                        simp only [hs]
                        rw [if_pos hq]
                        simp only [hp, hs1]
                        rw [if_pos hc]
                        simp only [hf1 f1 (by omega), hs3]
                        rw [if_neg hd, if_pos hd2]
                        simp only [Option.some.injEq, Prod.mk.injEq]
                        exact h
                      · rw [if_neg hd2] at h
                        simp at h
              · rw [if_neg hc] at h
                simp at h
        · rw [if_neg hq] at h
          simp at h

/-- The fuel of `JSONparse` is enough: a text that `parseValue` reads as one JSON value with
some amount of fuel is read as that value by `JSONparse`. -/
theorem JSONparse_fuel_enough (text : String) (g : Nat) (v : JsVal) (r : List Char)
    (h : parseValue g text.toList = some (v, r)) (hr : skipWs r = []) :
    JSONparse text = .ok v := by
  have h2 := ((parse_fuel g).1 text.toList v r h).2 (2 * text.toList.length + 2) (Nat.le_refl _)
  unfold JSONparse
  rw [h2]
  simp [hr]

/-! ## Theorems: `prettyError` -/

theorem truthy_eq_not_isEmptyField (v : JsVal) : truthy v = !isEmptyField v := by
  cases v <;> simp [truthy, isEmptyField]

theorem JSONparse_empty : JSONparse "" = .error .syntaxError := by rfl

theorem prettyError_parse_error (e : JsError) (t : JsThrow)
    (h : JSONparse e.message = .error t) :
    prettyError e = .ok (jsOr (.str e.message) (.str (errorToString e))) := by
  simp [prettyError, h, tryCatch, tryCatchThe, MonadExcept.tryCatch, MonadExceptOf.tryCatch,
    Except.tryCatch, bind, Except.bind, pure, Except.pure]

theorem prettyError_prop_error (e : JsError) (j : JsVal) (t : JsThrow)
    (h : JSONparse e.message = .ok j) (hj : propError j = .error t) :
    prettyError e = .ok (jsOr (.str e.message) (.str (errorToString e))) := by
  simp [prettyError, h, hj, tryCatch, tryCatchThe, MonadExcept.tryCatch,
    MonadExceptOf.tryCatch, Except.tryCatch, bind, Except.bind, pure, Except.pure]

theorem prettyError_parsed (e : JsError) (j f : JsVal)
    (h : JSONparse e.message = .ok j) (hj : propError j = .ok f) :
    prettyError e = .ok (jsOr f (.str e.message)) := by
  simp [prettyError, h, hj, tryCatch, tryCatchThe, MonadExcept.tryCatch,
    MonadExceptOf.tryCatch, Except.tryCatch, bind, Except.bind, pure, Except.pure]

/-- The function `prettyError` never throws: on every Error object it returns a value. -/
theorem prettyError_never_throws (e : JsError) : ∃ v, prettyError e = .ok v := by
  cases h : JSONparse e.message with
  | error t => exact ⟨_, prettyError_parse_error e t h⟩
  | ok j =>
    cases hj : propError j with
    | error t => exact ⟨_, prettyError_prop_error e j t h hj⟩
    | ok f => exact ⟨_, prettyError_parsed e j f h hj⟩

/-- C4. On every failure text, `prettyError` of the Error made from it is the three-tier
reference: the non-empty `error` member of the parsed object when there is one, otherwise the
raw text when the text is not empty, otherwise a generic fallback that is not empty. The three
examples of the specification evaluate as it says. -/
theorem prettyError_eq_spec :
    (∀ text : String, prettyError (newError text) = .ok (prettyErrorSpec text))
    ∧ prettyError (newError "\x7b\"error\":\"bad address\"\x7d") = .ok (.str "bad address")
    ∧ prettyError (newError "plain text") = .ok (.str "plain text")
    ∧ prettyError (newError "") = .ok (.str genericFallback)
    ∧ genericFallback ≠ "" := by
  refine ⟨?_, by rfl, by rfl, by rfl, by decide⟩
  intro text
  have hmsg : (newError text).message = text := rfl
  have hfall : jsOr (.str text) (.str (errorToString (newError text)))
      = if text = "" then .str genericFallback else .str text := by
    by_cases h : text = ""
    · subst h; rfl
    · simp [jsOr, truthy, h]
  cases h : JSONparse text with
  | error t =>
    rw [prettyError_parse_error (newError text) t (by rw [hmsg]; exact h), hmsg, hfall]
    simp [prettyErrorSpec, messageField, h]
  | ok j =>
    have hne : text ≠ "" := by
      intro h0
      rw [h0, JSONparse_empty] at h
      cases h
    cases j with
    | undefined =>
      rw [prettyError_prop_error (newError text) .undefined .typeError (by rw [hmsg]; exact h) rfl,
        hmsg, hfall]
      simp [prettyErrorSpec, messageField, h]
    | null =>
      rw [prettyError_prop_error (newError text) .null .typeError (by rw [hmsg]; exact h) rfl,
        hmsg, hfall]
      simp [prettyErrorSpec, messageField, h]
    | obj kvs =>
      rw [prettyError_parsed (newError text) (.obj kvs) (lookupLast "error" kvs)
        (by rw [hmsg]; exact h) rfl, hmsg]
      by_cases hf : isEmptyField (lookupLast "error" kvs) = true
      · simp [prettyErrorSpec, messageField, h, hf, jsOr, truthy_eq_not_isEmptyField, hne]
      · simp [prettyErrorSpec, messageField, h, hf, jsOr, truthy_eq_not_isEmptyField]
    | bool b =>
      rw [prettyError_parsed (newError text) (.bool b) .undefined (by rw [hmsg]; exact h) rfl,
        hmsg]
      simp [prettyErrorSpec, messageField, h, jsOr, truthy, hne]
    | num n =>
      rw [prettyError_parsed (newError text) (.num n) .undefined (by rw [hmsg]; exact h) rfl,
        hmsg]
      simp [prettyErrorSpec, messageField, h, jsOr, truthy, hne]
    | str s =>
      rw [prettyError_parsed (newError text) (.str s) .undefined (by rw [hmsg]; exact h) rfl,
        hmsg]
      simp [prettyErrorSpec, messageField, h, jsOr, truthy, hne]
    | arr xs =>
      rw [prettyError_parsed (newError text) (.arr xs) .undefined (by rw [hmsg]; exact h) rfl,
        hmsg]
      simp [prettyErrorSpec, messageField, h, jsOr, truthy, hne]

/-- C10. At the failure text `{"error":{"code":500}}` the function `prettyError` returns the
parsed object under `error`, which is not a string; it does not throw there. -/
theorem prettyError_returns_object :
    prettyError (newError "\x7b\"error\":\x7b\"code\":500\x7d\x7d")
      = .ok (.obj [("code", .num ⟨false, 500, 0⟩)])
    ∧ JsVal.isString (.obj [("code", .num ⟨false, 500, 0⟩)]) = false := by
  exact ⟨by rfl, by rfl⟩

/-! ## Theorems: requests in flight -/

theorem getElem?_append_length {α : Type} (l : List α) (a : α) (r : List α) :
    (l ++ a :: r)[l.length]? = some a := by
  induction l with
  | nil => simp
  | cons x xs ih => simpa using ih

theorem eraseIdx_append_length {α : Type} (l : List α) (a : α) (r : List α) :
    (l ++ a :: r).eraseIdx l.length = l ++ r := by
  induction l with
  | nil => rfl
  | cons x xs ih => simp [List.eraseIdx, ih]

theorem eraseIdx_concat_length {α : Type} (l : List α) (a : α) :
    (l ++ [a]).eraseIdx l.length = l := by
  rw [eraseIdx_append_length, List.append_nil]

theorem getElem?_append_length_succ {α : Type} (l : List α) (a b : α) (r : List α) :
    (l ++ a :: b :: r)[l.length + 1]? = some b := by
  induction l with
  | nil => simp
  | cons x xs ih => simpa using ih

theorem eraseIdx_append_length_succ {α : Type} (l : List α) (a b : α) (r : List α) :
    (l ++ a :: b :: r).eraseIdx (l.length + 1) = l ++ a :: r := by
  induction l with
  | nil => rfl
  | cons x xs ih => simp [List.eraseIdx, ih]

/-! ## Theorems: the `Transactions` component -/

theorem prettyError_eq_value (e : JsError) : prettyError e = .ok (prettyErrorValue e) := by
  obtain ⟨v, hv⟩ := prettyError_never_throws e
  simp [prettyErrorValue, hv]

theorem Transactions.settled_resolved (l : List Transaction) (st : TxState) :
    Transactions.settled (.resolved l) st = ({ st with items := l, loading := false }, none) :=
  rfl

theorem Transactions.settled_rejected (e : JsError) (st : TxState) :
    Transactions.settled (.rejected e) st
      = ({ st with error := prettyErrorValue e, loading := false }, none) := by
  simp [Transactions.settled, prettyError_eq_value]

theorem Transactions.settled_unhandled (o : Settled (List Transaction)) (st : TxState) :
    (Transactions.settled o st).2 = none := by
  cases o with
  | resolved l => rfl
  | rejected e => rw [Transactions.settled_rejected]

theorem step_clickView (P : Platform) (w : World) (a : String) (h : w.selected ≠ a)
    (ha : a ≠ "") :
    step P w (.clickView a)
      = some { w with selected := a
                      tx := { w.tx with loading := true, error := .str "" }
                      sent := w.sent ++ [api.transactions a]
                      pending := w.pending ++ [.transactions a] } := by
  have h1 : ¬ a = w.selected := fun h2 => h h2.symm
  simp [step, commit, setSelected, runEffect, Transactions.effect, issue, h1, ha]

theorem step_settle_transactions (P : Platform) (w : World) (i : Nat) (a : String)
    (o : Settled (List Transaction)) (h : w.pending[i]? = some (.transactions a)) :
    step P w (.settle i (transactionsResponse o))
      = some { w with pending := w.pending.eraseIdx i
                      tx := (Transactions.settled o w.tx).1 } := by
  cases o with
  | resolved l =>
    simp [step, h, transactionsResponse, resume, transactionsSettled, commit,
      Transactions.settled_unhandled]
  | rejected e =>
    simp [step, h, transactionsResponse, resume, transactionsSettled, commit,
      Transactions.settled_unhandled]

/-- C1 (counterexample). Addresses `1A` then `1B` are selected while the request for `1A` is in
flight; the response for `1B` arrives first and the one for `1A` after it. The selection is
`1B`, yet the items are those of the response for `1A`, which differ from those of `1B`. -/
theorem stale_response_counterexample :
    (run examplePlatform World.init
        [.settle 0 (.addresses [⟨"1A", "0.5"⟩, ⟨"1B", "0"⟩]),
         .clickView "1A", .clickView "1B",
         .settle 1 (.transactions [⟨"bb", "2024-01-01T00:00:00Z", "outgoing", "0.1"⟩]),
         .settle 0 (.transactions [⟨"aa", "2024-01-01T00:00:00Z", "incoming", "0.5"⟩])]).map
      (fun w => (w.selected, w.tx.items, w.tx.loading, w.pending))
      = some ("1B", [⟨"aa", "2024-01-01T00:00:00Z", "incoming", "0.5"⟩], false, [])
    ∧ ([⟨"aa", "2024-01-01T00:00:00Z", "incoming", "0.5"⟩] : List Transaction)
        ≠ [⟨"bb", "2024-01-01T00:00:00Z", "outgoing", "0.1"⟩] := by
  exact ⟨by rfl, by decide⟩

/-- C1 (amended). For distinct non-empty addresses `A` and `B`, selected in that order from a
page where `A` was not selected, both requests are in flight and each response is applied when
it arrives, whatever the selection is then: in either order of arrival the selection stays `B`,
the loading flag ends cleared, the items are those of the last response that succeeded (those
held before when none did) and the error is that of the last response that failed (empty when
none did). -/
theorem stale_response_is_applied (P : Platform) (w : World) (A B : String)
    (oA oB : Settled (List Transaction))
    (hA : A ≠ "") (hB : B ≠ "") (hAB : A ≠ B) (hsel : w.selected ≠ A) :
    ∃ w2 f1 f2,
      run P w [.clickView A, .clickView B] = some w2
      ∧ w2.pending = w.pending ++ [.transactions A, .transactions B]
      ∧ run P w2 [.settle w.pending.length (transactionsResponse oA),
                  .settle w.pending.length (transactionsResponse oB)] = some f1
      ∧ run P w2 [.settle (w.pending.length + 1) (transactionsResponse oB),
                  .settle w.pending.length (transactionsResponse oA)] = some f2
      ∧ f1.selected = B ∧ f2.selected = B
      ∧ f1.tx.loading = false ∧ f2.tx.loading = false
      ∧ f1.tx.items = lastItems w.tx.items oA oB ∧ f1.tx.error = lastError oA oB
      ∧ f2.tx.items = lastItems w.tx.items oB oA ∧ f2.tx.error = lastError oB oA := by
  have s1 := step_clickView P w A hsel hA
  have s2 := step_clickView P
    { w with selected := A
             tx := { w.tx with loading := true, error := .str "" }
             sent := w.sent ++ [api.transactions A]
             pending := w.pending ++ [.transactions A] } B hAB hB
  have r2 : run P w [.clickView A, .clickView B]
      = some { w with selected := B
                      tx := { w.tx with loading := true, error := .str "" }
                      sent := w.sent ++ [api.transactions A] ++ [api.transactions B]
                      pending := w.pending ++ [.transactions A, .transactions B] } := by
    simp only [run, s1, s2]
    simp
  refine ⟨_, { w with selected := B
                      tx := (Transactions.settled oB (Transactions.settled oA
                        { w.tx with loading := true, error := .str "" }).1).1
                      sent := w.sent ++ [api.transactions A] ++ [api.transactions B] },
    { w with selected := B
             tx := (Transactions.settled oA (Transactions.settled oB
               { w.tx with loading := true, error := .str "" }).1).1
             sent := w.sent ++ [api.transactions A] ++ [api.transactions B] },
    r2, rfl, ?_, ?_, ?_⟩
  · simp only [run]
    rw [step_settle_transactions P _ _ A oA (getElem?_append_length _ _ _)]
    simp only [eraseIdx_append_length]
    rw [step_settle_transactions P _ _ B oB (getElem?_append_length _ _ _)]
    simp [eraseIdx_concat_length]
  · simp only [run]
    rw [step_settle_transactions P _ _ B oB (getElem?_append_length_succ _ _ _ _)]
    simp only [eraseIdx_append_length_succ]
    rw [step_settle_transactions P _ _ A oA (getElem?_append_length _ _ _)]
    simp [eraseIdx_concat_length]
  · cases oA <;> cases oB <;>
      simp [Transactions.settled_resolved, Transactions.settled_rejected, lastItems, lastError]

/-- C1 (witness). The amended statement at the page after mount, with `1A` and `1B` and two
successful responses. -/
theorem stale_response_is_applied_witness :
    (("1A" : String) ≠ "" ∧ ("1B" : String) ≠ "" ∧ ("1A" : String) ≠ "1B"
      ∧ World.init.selected ≠ "1A")
    ∧ ∃ w2 f1 f2,
      run examplePlatform World.init [.clickView "1A", .clickView "1B"] = some w2
      ∧ w2.pending = World.init.pending ++ [.transactions "1A", .transactions "1B"]
      ∧ run examplePlatform w2
          [.settle World.init.pending.length (transactionsResponse (.resolved [])),
           .settle World.init.pending.length
             (transactionsResponse (.resolved [⟨"bb", "2024-01-01T00:00:00Z", "outgoing", "0.1"⟩]))]
          = some f1
      ∧ run examplePlatform w2
          [.settle (World.init.pending.length + 1)
             (transactionsResponse (.resolved [⟨"bb", "2024-01-01T00:00:00Z", "outgoing", "0.1"⟩])),
           .settle World.init.pending.length (transactionsResponse (.resolved []))]
          = some f2
      ∧ f1.selected = "1B" ∧ f2.selected = "1B"
      ∧ f1.tx.loading = false ∧ f2.tx.loading = false
      ∧ f1.tx.items = lastItems World.init.tx.items (.resolved [])
          (.resolved [⟨"bb", "2024-01-01T00:00:00Z", "outgoing", "0.1"⟩])
      ∧ f1.tx.error = lastError (.resolved [])
          (.resolved [⟨"bb", "2024-01-01T00:00:00Z", "outgoing", "0.1"⟩])
      ∧ f2.tx.items = lastItems World.init.tx.items
          (.resolved [⟨"bb", "2024-01-01T00:00:00Z", "outgoing", "0.1"⟩]) (.resolved [])
      ∧ f2.tx.error = lastError
          (.resolved [⟨"bb", "2024-01-01T00:00:00Z", "outgoing", "0.1"⟩]) (.resolved []) :=
  ⟨⟨by decide, by decide, by decide, by decide⟩,
   stale_response_is_applied examplePlatform World.init "1A" "1B" (.resolved [])
     (.resolved [⟨"bb", "2024-01-01T00:00:00Z", "outgoing", "0.1"⟩])
     (by decide) (by decide) (by decide) (by decide)⟩

theorem Transactions.rows_of_valid_dates (P : Platform) (L : List Transaction)
    (hd : ∀ t ∈ L, (P.dateToISOString t.timestamp).isSome = true) :
    ∃ rows, Transactions.rows P L = .ok rows
      ∧ rows.map (fun r => r.type) = L.map (fun t => t.type)
      ∧ rows.map (fun r => r.key) = L.map (fun t => t.tx_hash)
      ∧ rows.map (fun r => r.amount) = L.map (fun t => t.amount) := by
  induction L with
  | nil => exact ⟨[], rfl, rfl, rfl, rfl⟩
  | cons t ts ih =>
    obtain ⟨rs, hrs, h1, h2, h3⟩ := ih (fun u hu => hd u (List.mem_cons_of_mem _ hu))
    have ht := hd t (List.mem_cons_self _ _)
    obtain ⟨iso, hiso⟩ := Option.isSome_iff_exists.mp ht
    refine ⟨Transactions.rowOf iso t :: rs, ?_, ?_, ?_, ?_⟩
    · simp only [Transactions.rows, Transactions.row, hiso, hrs]
    · simp [h1, Transactions.rowOf]
    · simp [h2, Transactions.rowOf]
    · simp [h3, Transactions.rowOf]

/-! ## Theorems: `add` -/

theorem step_settle_add_ack (P : Platform) (w : World) (i : Nat)
    (h : w.pending[i]? = some .add) :
    step P w (.settle i .ack)
      = some { w with input := ""
                      status := "Loading addresses…"
                      sent := w.sent ++ [api.listAddresses]
                      pending := w.pending.eraseIdx i ++ [.reload] } := by
  simp [step, h, resume, addSettled, commit, reload, issue, setStatus, setInput]

/-- C5. When the trimmed input is not empty, `add` issues exactly one request, a POST to
`/addresses` whose body is the object with the trimmed input as `address`. When that request
succeeds, at once or after anything else has happened, the input field is cleared and exactly
one request is issued, a GET to `/addresses`, the one of `reload`. -/
theorem add_issues_one_create_then_one_reload (P : Platform) (w : World)
    (h : jsTrim w.input ≠ "") :
    ∃ w1 w2 : World,
      step P w .clickAdd = some w1
      ∧ w1.sent = w.sent
          ++ [⟨.POST, "/addresses", some (.obj [("address", .str (jsTrim w.input))])⟩]
      ∧ w1.pending = w.pending ++ [.add]
      ∧ step P w1 (.settle w.pending.length .ack) = some w2
      ∧ w2.input = "" ∧ w2.sent = w1.sent ++ [⟨.GET, "/addresses", none⟩]
      ∧ w2.pending = w.pending ++ [.reload]
      ∧ ∀ (v : World) (i : Nat), v.pending[i]? = some .add →
          ∃ v2, step P v (.settle i .ack) = some v2
            ∧ v2.input = "" ∧ v2.sent = v.sent ++ [⟨.GET, "/addresses", none⟩]
            ∧ v2.pending = v.pending.eraseIdx i ++ [.reload] := by
  refine ⟨{ w with status := "Adding…"
                   sent := w.sent ++ [api.addAddress (jsTrim w.input)]
                   pending := w.pending ++ [.add] },
    _, ?_, rfl, rfl,
    step_settle_add_ack P _ w.pending.length (getElem?_append_length _ _ _), rfl, rfl, ?_, ?_⟩
  · simp [step, add, h, issue, setStatus]
  · simp [eraseIdx_concat_length]
  · intro v i hv
    exact ⟨_, step_settle_add_ack P v i hv, rfl, rfl, rfl⟩

/-- C5 (witness). The input ` 1A1zP1... ` on the page of the scenario: one POST carrying
`1A1zP1...`, then one GET. -/
theorem add_issues_one_create_then_one_reload_witness :
    jsTrim (setInput " 1A1zP1... " examplePage).input ≠ ""
    ∧ ∃ w1 w2 : World,
      step examplePlatform (setInput " 1A1zP1... " examplePage) .clickAdd = some w1
      ∧ w1.sent = (setInput " 1A1zP1... " examplePage).sent
          ++ [⟨.POST, "/addresses",
                some (.obj [("address", .str (jsTrim (setInput " 1A1zP1... " examplePage).input))])⟩]
      ∧ w1.pending = (setInput " 1A1zP1... " examplePage).pending ++ [.add]
      ∧ step examplePlatform w1
          (.settle (setInput " 1A1zP1... " examplePage).pending.length .ack) = some w2
      ∧ w2.input = "" ∧ w2.sent = w1.sent ++ [⟨.GET, "/addresses", none⟩]
      ∧ w2.pending = (setInput " 1A1zP1... " examplePage).pending ++ [.reload]
      ∧ ∀ (v : World) (i : Nat), v.pending[i]? = some .add →
          ∃ v2, step examplePlatform v (.settle i .ack) = some v2
            ∧ v2.input = "" ∧ v2.sent = v.sent ++ [⟨.GET, "/addresses", none⟩]
            ∧ v2.pending = v.pending.eraseIdx i ++ [.reload] :=
  ⟨by decide,
   add_issues_one_create_then_one_reload examplePlatform (setInput " 1A1zP1... " examplePage)
     (by decide)⟩

theorem dropWhile_reverse_dropWhile_eq_nil_iff {α : Type} (p : α → Bool) (l : List α) :
    ((l.dropWhile p).reverse.dropWhile p).reverse = [] ↔ ∀ x ∈ l, p x = true := by
  rw [List.reverse_eq_nil_iff, List.dropWhile_eq_nil_iff]
  constructor
  · intro h
    by_contra hne
    have hd : l.dropWhile p ≠ [] := by
      intro h0
      exact hne (List.dropWhile_eq_nil_iff.mp h0)
    have h1 := List.head_dropWhile_not p l hd
    have h2 := h ((l.dropWhile p).head hd) (by simp [List.head_mem])
    rw [h2] at h1
    exact absurd h1 (by simp)
  · intro h x hx
    have : l.dropWhile p = [] := List.dropWhile_eq_nil_iff.mpr h
    rw [this] at hx
    simp at hx

/-- The trimmed string is empty exactly when every character is white space. -/
theorem jsTrim_eq_empty_iff (s : String) :
    jsTrim s = "" ↔ ∀ c ∈ s.toList, isJsWhiteSpace c = true := by
  rw [← dropWhile_reverse_dropWhile_eq_nil_iff]
  unfold jsTrim
  constructor
  · intro h
    have := congrArg String.data h
    simpa using this
  · intro h
    rw [h]

/-- C6. When the input is empty after trimming, that is when it is empty or all its characters
are white space, `add` does nothing: it issues no request and leaves the whole page, status,
input, address list and selection included, as it was. The two inputs of the specification,
the empty one and three spaces, are empty after trimming. -/
theorem add_blank_is_noop (P : Platform) (w : World) (h : jsTrim w.input = "") :
    step P w .clickAdd = some w
    ∧ (jsTrim w.input = "" ↔ ∀ c ∈ w.input.toList, isJsWhiteSpace c = true)
    ∧ jsTrim "" = "" ∧ jsTrim "   " = "" := by
  refine ⟨?_, jsTrim_eq_empty_iff w.input, by rfl, by rfl⟩
  simp [step, add, h]

/-- C6 (witness). The input of three spaces on the page of the scenario. -/
theorem add_blank_is_noop_witness :
    jsTrim (setInput "   " examplePage).input = ""
    ∧ step examplePlatform (setInput "   " examplePage) .clickAdd
        = some (setInput "   " examplePage)
    ∧ (jsTrim (setInput "   " examplePage).input = ""
        ↔ ∀ c ∈ (setInput "   " examplePage).input.toList, isJsWhiteSpace c = true)
    ∧ jsTrim "" = "" ∧ jsTrim "   " = "" :=
  ⟨by rfl, add_blank_is_noop examplePlatform (setInput "   " examplePage) (by rfl)⟩

/-! ## Theorems: `remove` -/

theorem step_clickRemove (P : Platform) (w : World) (address : String) :
    step P w (.clickRemove address)
      = some { w with status := "Removing…"
                      sent := w.sent ++ [api.removeAddress address]
                      pending := w.pending ++ [.remove address w.selected] } := by
  simp [step, remove, issue, setStatus]

theorem step_settle_remove_ack_selected (P : Platform) (w : World) (i : Nat)
    (address sel : String) (h : w.pending[i]? = some (.remove address sel)) :
    ∃ w2, step P w (.settle i .ack) = some w2
      ∧ w2.selected = (if sel = address then "" else w.selected)
      ∧ w2.status = "Loading addresses…"
      ∧ w2.sent = w.sent ++ [api.listAddresses]
      ∧ w2.pending = w.pending.eraseIdx i ++ [.reload] := by
  by_cases hs : sel = address
  · by_cases hw : w.selected = ""
    · refine ⟨{ w with selected := ""
                       status := "Loading addresses…"
                       sent := w.sent ++ [api.listAddresses]
                       pending := w.pending.eraseIdx i ++ [.reload] }, ?_, ?_, rfl, rfl, rfl⟩
      · simp [step, h, resume, removeSettled, hs, commit, reload, issue, setStatus,
          setSelected, hw]
      · simp [hs]
    · have hw2 : ¬ "" = w.selected := fun h2 => hw h2.symm
      refine ⟨{ w with selected := ""
                       tx := { w.tx with items := [] }
                       status := "Loading addresses…"
                       sent := w.sent ++ [api.listAddresses]
                       pending := w.pending.eraseIdx i ++ [.reload] }, ?_, ?_, rfl, rfl, rfl⟩
      · simp [step, h, resume, removeSettled, hs, commit, reload, issue, setStatus,
          setSelected, hw2, runEffect, Transactions.effect]
      · simp [hs]
  · refine ⟨{ w with status := "Loading addresses…"
                     sent := w.sent ++ [api.listAddresses]
                     pending := w.pending.eraseIdx i ++ [.reload] }, ?_, ?_, rfl, rfl, rfl⟩
    · simp [step, h, resume, removeSettled, hs, commit, reload, issue, setStatus]
    · simp [hs]

/-- What `remove` does to the selection. The handler compares `address` with the selection it
was called with, not with the selection at the time its request succeeds: for a `remove` in
flight that was called when `sel` was selected, success empties the selection exactly when
`sel = address` and leaves it as it is otherwise. When success is the next event after the
call, `sel` is the current selection. -/
theorem remove_clears_selection_iff_selected (P : Platform) (w : World) (address : String) :
    (∃ w1 w2 : World,
      step P w (.clickRemove address) = some w1
      ∧ w1.selected = w.selected
      ∧ w1.sent = w.sent ++ [⟨.DELETE, "/addresses/" ++ encodeURIComponent address, none⟩]
      ∧ step P w1 (.settle w.pending.length .ack) = some w2
      ∧ w2.selected = (if w.selected = address then "" else w.selected))
    ∧ ∀ (v : World) (i : Nat) (sel : String), v.pending[i]? = some (.remove address sel) →
        ∃ v2, step P v (.settle i .ack) = some v2
          ∧ v2.selected = (if sel = address then "" else v.selected) := by
  constructor
  · obtain ⟨w2, h2, hsel, _⟩ := step_settle_remove_ack_selected P
      { w with status := "Removing…"
               sent := w.sent ++ [api.removeAddress address]
               pending := w.pending ++ [.remove address w.selected] }
      w.pending.length address w.selected (getElem?_append_length _ _ _)
    exact ⟨_, w2, step_clickRemove P w address, rfl, rfl, h2, hsel⟩
  · intro v i sel hv
    obtain ⟨v2, h2, hsel, _⟩ := step_settle_remove_ack_selected P v i address sel hv
    exact ⟨v2, h2, hsel⟩

/-- C3. The selection test of `remove` uses the selection of the render in which it was called.
First run: `1A` is selected, `remove("1A")` is called, the user selects `1B`, then the DELETE
succeeds: the selection, `1B` just before, becomes empty although `1B` is not the removed
address. Second run: nothing is selected, `remove("1A")` is called, the user selects `1A`,
then the DELETE succeeds: the removed address `1A` stays selected. -/
theorem remove_uses_stale_selection :
    (run examplePlatform World.init
        [.settle 0 (.addresses [⟨"1A", "0.5"⟩, ⟨"1B", "0"⟩]), .clickView "1A",
         .settle 0 (.transactions []), .clickRemove "1A", .clickView "1B"]).map
      (fun w => (w.selected, w.pending))
      = some ("1B", [.remove "1A" "1A", .transactions "1B"])
    ∧ (run examplePlatform World.init
        [.settle 0 (.addresses [⟨"1A", "0.5"⟩, ⟨"1B", "0"⟩]), .clickView "1A",
         .settle 0 (.transactions []), .clickRemove "1A", .clickView "1B",
         .settle 0 .ack]).map (fun w => w.selected)
      = some ""
    ∧ (run examplePlatform World.init
        [.settle 0 (.addresses [⟨"1A", "0.5"⟩, ⟨"1B", "0"⟩]), .clickRemove "1A",
         .clickView "1A", .settle 0 .ack]).map (fun w => w.selected)
      = some "1A" := by
  exact ⟨by rfl, by rfl, by rfl⟩

/-! ## Theorems: `sync`, `reload` and the timer -/

theorem step_clickSync (P : Platform) (w : World) (address : String) :
    step P w (.clickSync address)
      = some { w with status := "Syncing…"
                      sent := w.sent ++ [api.sync address]
                      pending := w.pending ++ [.sync address w.selected] } := by
  simp [step, sync, issue, setStatus]

theorem step_elapse (P : Platform) (w : World) (ms : Nat) :
    step P w (.elapse ms) = some { w with now := w.now + ms } := rfl

theorem step_timer_due (P : Platform) (w : World) (i due : Nat)
    (h : w.timers[i]? = some due) (hdue : due ≤ w.now) :
    step P w (.timer i) = some { w with status := "", timers := w.timers.eraseIdx i } := by
  simp [step, h, hdue, setStatus]

theorem step_timer_early (P : Platform) (w : World) (i due : Nat)
    (h : w.timers[i]? = some due) (hearly : w.now < due) :
    step P w (.timer i) = none := by
  have h2 : ¬ due ≤ w.now := Nat.not_le.mpr hearly
  simp [step, h, h2]

theorem reloadSettled_fields (P : Platform) (o : Settled (List Address)) (w : World) :
    (reloadSettled P o w).status = ""
    ∧ (reloadSettled P o w).timers = w.timers
    ∧ (reloadSettled P o w).now = w.now
    ∧ (reloadSettled P o w).pending = w.pending
    ∧ (reloadSettled P o w).selected = w.selected := by
  cases o with
  | resolved l => exact ⟨rfl, rfl, rfl, rfl, rfl⟩
  | rejected e =>
    cases hc : (prettyError e >>= jsConcat P "Error: ") with
    | ok s => simp [reloadSettled, hc, setStatus]
    | error t => simp [reloadSettled, hc, setStatus, unhandledRejection]

theorem step_settle_reload (P : Platform) (w : World) (k : Nat) (o : Settled (List Address))
    (h : w.pending[k]? = some .reload) :
    ∃ w2, step P w (.settle k (addressesResponse o)) = some w2
      ∧ w2.status = "" ∧ w2.timers = w.timers ∧ w2.now = w.now
      ∧ w2.pending = w.pending.eraseIdx k := by
  obtain ⟨h1, h2, h3, h4, h5⟩ :=
    reloadSettled_fields P o { w with pending := w.pending.eraseIdx k }
  refine ⟨reloadSettled P o { w with pending := w.pending.eraseIdx k }, ?_, h1, h2, h3, h4⟩
  have h6 : (reloadSettled P o { w with pending := w.pending.eraseIdx k }).selected
      = w.selected := h5
  cases o with
  | resolved l => simp [step, h, addressesResponse, resume, commit, h6]
  | rejected e => simp [step, h, addressesResponse, resume, commit, h6]

theorem step_settle_sync_ack (P : Platform) (w : World) (i : Nat) (address sel : String)
    (h : w.pending[i]? = some (.sync address sel)) :
    ∃ w1 rest, step P w (.settle i .ack) = some w1
      ∧ w1.status = "Synced ✓"
      ∧ w1.timers = w.timers ++ [w.now + 800]
      ∧ w1.now = w.now
      ∧ w1.pending = w.pending.eraseIdx i ++ .reload :: rest
      ∧ w1.sent = w.sent ++ api.listAddresses :: rest.map (fun _ => api.transactions address)
      ∧ w1.addresses = w.addresses ∧ w1.input = w.input := by
  by_cases hs : sel = address
  · by_cases hw : w.selected = address
    · refine ⟨{ w with status := "Synced ✓"
                       timers := w.timers ++ [w.now + 800]
                       sent := w.sent ++ [api.listAddresses]
                       pending := w.pending.eraseIdx i ++ [.reload] }, [], ?_,
        rfl, rfl, rfl, rfl, rfl, rfl, rfl⟩
      have hw3 : address = w.selected := hw.symm
      simp [step, h, resume, syncSettled, hs, commit, reload, issue, setStatus, setSelected,
        setTimeout, hw3]
    · have hw2 : ¬ address = w.selected := fun h2 => hw h2.symm
      by_cases ha : address = ""
      · subst ha
        refine ⟨{ w with selected := ""
                         tx := { w.tx with items := [] }
                         status := "Synced ✓"
                         timers := w.timers ++ [w.now + 800]
                         sent := w.sent ++ [api.listAddresses]
                         pending := w.pending.eraseIdx i ++ [.reload] }, [], ?_,
          rfl, rfl, rfl, rfl, rfl, rfl, rfl⟩
        simp [step, h, resume, syncSettled, hs, commit, reload, issue, setStatus, setSelected,
          setTimeout, hw2, runEffect, Transactions.effect]
      · refine ⟨{ w with selected := address
                         tx := { w.tx with loading := true, error := .str "" }
                         status := "Synced ✓"
                         timers := w.timers ++ [w.now + 800]
                         sent := w.sent ++ [api.listAddresses, api.transactions address]
                         pending := w.pending.eraseIdx i ++ [.reload, .transactions address] },
          [.transactions address], ?_, rfl, rfl, rfl, rfl, rfl, rfl, rfl⟩
        simp [step, h, resume, syncSettled, hs, commit, reload, issue, setStatus, setSelected,
          setTimeout, hw2, runEffect, Transactions.effect, ha]
  · refine ⟨{ w with status := "Synced ✓"
                     timers := w.timers ++ [w.now + 800]
                     sent := w.sent ++ [api.listAddresses]
                     pending := w.pending.eraseIdx i ++ [.reload] }, [], ?_,
      rfl, rfl, rfl, rfl, rfl, rfl, rfl⟩
    simp [step, h, resume, syncSettled, hs, commit, reload, issue, setStatus, setTimeout]

theorem run_cons (P : Platform) (w w1 : World) (ev : Event) (evs : List Event)
    (h : step P w ev = some w1) : run P w (ev :: evs) = run P w1 evs := by
  simp only [run, h]

theorem run_elapse (P : Platform) (w : World) (ms : Nat) (evs : List Event) :
    run P w (.elapse ms :: evs) = run P { w with now := w.now + ms } evs :=
  run_cons P w _ _ evs (step_elapse P w ms)

theorem run_timer_last (P : Platform) (w : World) (i due : Nat)
    (h : w.timers[i]? = some due) (hdue : due ≤ w.now) :
    ∃ wf, run P w [.timer i] = some wf ∧ wf.status = "" :=
  ⟨{ w with status := "", timers := w.timers.eraseIdx i },
    by rw [run_cons P w _ _ _ (step_timer_due P w i due h hdue)]; rfl, rfl⟩

theorem run_settle_reload_last (P : Platform) (w : World) (k : Nat)
    (o : Settled (List Address)) (h : w.pending[k]? = some .reload) :
    ∃ wf, run P w [.settle k (addressesResponse o)] = some wf ∧ wf.status = "" := by
  obtain ⟨b, hb, hbs, _⟩ := step_settle_reload P w k o h
  exact ⟨b, by rw [run_cons P w _ _ _ hb]; rfl, hbs⟩

/-- C7. `sync(address)` issues one POST to `/sync/` followed by the encoded address. When that
request succeeds, whatever has happened meanwhile, the status becomes `Synced ✓` and a timer
is set for 800 ms later, which cannot fire earlier. With no user action in between, once the
timer has fired the status is empty, whether the reload that `sync` triggered succeeded or
failed, and whether it settled before the timer fired, after it, or not yet. -/
theorem sync_success_then_auto_clear (P : Platform) (w : World) (i : Nat)
    (address sel : String) (h : w.pending[i]? = some (.sync address sel)) :
    (∀ w0 : World, ∃ w', step P w0 (.clickSync address) = some w'
        ∧ w'.pending = w0.pending ++ [.sync address w0.selected]
        ∧ w'.sent = w0.sent ++ [⟨.POST, "/sync/" ++ encodeURIComponent address, some (.obj [])⟩])
    ∧ ∃ w1, step P w (.settle i .ack) = some w1
      ∧ w1.status = "Synced ✓"
      ∧ w1.timers = w.timers ++ [w.now + 800]
      ∧ (∀ d, d < 800 → run P w1 [.elapse d, .timer w.timers.length] = none)
      ∧ ∀ (o : Settled (List Address)) (d1 d2 : Nat),
          (800 ≤ d1 + d2 →
            ∃ wf, run P w1 [.elapse d1, .settle (w.pending.eraseIdx i).length (addressesResponse o),
                            .elapse d2, .timer w.timers.length] = some wf
              ∧ wf.status = "")
          ∧ (800 ≤ d1 →
            ∃ wf, run P w1 [.elapse d1, .timer w.timers.length, .elapse d2,
                            .settle (w.pending.eraseIdx i).length (addressesResponse o)] = some wf
              ∧ wf.status = "")
          ∧ (800 ≤ d1 →
            ∃ wf, run P w1 [.elapse d1, .timer w.timers.length] = some wf
              ∧ wf.status = "") := by
  constructor
  · intro w0
    exact ⟨_, step_clickSync P w0 address, rfl, rfl⟩
  obtain ⟨w1, rest, hstep, hst, htm, hnow, hpend, _⟩ := step_settle_sync_ack P w i address sel h
  refine ⟨w1, hstep, hst, htm, ?_, ?_⟩
  · intro d hd
    have hidx : ({ w1 with now := w1.now + d } : World).timers[w.timers.length]?
        = some (w.now + 800) := by
      show w1.timers[w.timers.length]? = _
      rw [htm]
      exact getElem?_append_length _ _ _
    have hearly : ({ w1 with now := w1.now + d } : World).now < w.now + 800 := by
      show w1.now + d < w.now + 800
      omega
    simp only [run, step_elapse]
    rw [step_timer_early P _ _ _ hidx hearly]
  · intro o d1 d2
    have hreload : ∀ v : World, v.pending = w1.pending →
        v.pending[(w.pending.eraseIdx i).length]? = some .reload := by
      intro v hv
      rw [hv, hpend]
      exact getElem?_append_length _ _ _
    have htimer : ∀ v : World, v.timers = w1.timers →
        v.timers[w.timers.length]? = some (w.now + 800) := by
      intro v hv
      rw [hv, htm]
      exact getElem?_append_length _ _ _
    refine ⟨?_, ?_, ?_⟩
    · intro hd
      obtain ⟨b, hb, _, hbt, hbn, _⟩ := step_settle_reload P { w1 with now := w1.now + d1 }
        (w.pending.eraseIdx i).length o (hreload _ rfl)
      have hidx := htimer { b with now := b.now + d2 } hbt
      have hdue : w.now + 800 ≤ ({ b with now := b.now + d2 } : World).now := by
        show w.now + 800 ≤ b.now + d2
        rw [hbn]
        show w.now + 800 ≤ w1.now + d1 + d2
        omega
      rw [run_elapse, run_cons P _ _ _ _ hb, run_elapse]
      exact run_timer_last P _ _ _ hidx hdue
    · intro hd
      have hidx := htimer { w1 with now := w1.now + d1 } rfl
      have hdue : w.now + 800 ≤ ({ w1 with now := w1.now + d1 } : World).now := by
        show w.now + 800 ≤ w1.now + d1
        omega
      rw [run_elapse, run_cons P _ _ _ _ (step_timer_due P _ _ _ hidx hdue), run_elapse]
      exact run_settle_reload_last P _ _ o (hreload _ rfl)
    · intro hd
      have hidx := htimer { w1 with now := w1.now + d1 } rfl
      have hdue : w.now + 800 ≤ ({ w1 with now := w1.now + d1 } : World).now := by
        show w.now + 800 ≤ w1.now + d1
        omega
      rw [run_elapse]
      exact run_timer_last P _ _ _ hidx hdue

/-- C7 (witness). On the page of the scenario `sync("1A1zP1...")` is called and succeeds: the
status is `Synced ✓`, and 800 ms later the timer fires and the status is empty. -/
theorem sync_success_then_auto_clear_witness :
    (sync "1A1zP1..." examplePage).pending[0]? = some (.sync "1A1zP1..." "")
    ∧ ∃ w1 wf, step examplePlatform (sync "1A1zP1..." examplePage) (.settle 0 .ack) = some w1
      ∧ w1.status = "Synced ✓"
      ∧ run examplePlatform w1
          [.elapse 800, .timer (sync "1A1zP1..." examplePage).timers.length] = some wf
      ∧ wf.status = "" :=
  ⟨by rfl, by
    obtain ⟨w1, h1, h2, _, _, h5⟩ :=
      (sync_success_then_auto_clear examplePlatform (sync "1A1zP1..." examplePage) 0
        "1A1zP1..." "" (by rfl)).2
    obtain ⟨wf, hf, hs⟩ := (h5 (.resolved []) 800 0).2.2 (Nat.le_refl 800)
    exact ⟨w1, wf, h1, h2, hf, hs⟩⟩

theorem addSettled_timers (P : Platform) (o : Settled Unit) (w : World) :
    (addSettled P o w).timers = w.timers := by
  cases o with
  | resolved u => rfl
  | rejected e =>
    cases hc : (prettyError e >>= jsConcat P "Error: ") with
    | ok s => simp [addSettled, hc, setStatus]
    | error t => simp [addSettled, hc, unhandledRejection]

theorem removeSettled_timers (P : Platform) (a sel : String) (o : Settled Unit) (w : World) :
    (removeSettled P a sel o w).timers = w.timers := by
  cases o with
  | resolved u =>
    by_cases hs : sel = a <;> simp [removeSettled, hs, reload, issue, setStatus, setSelected]
  | rejected e =>
    cases hc : (prettyError e >>= jsConcat P "Error: ") with
    | ok s => simp [removeSettled, hc, setStatus]
    | error t => simp [removeSettled, hc, unhandledRejection]

theorem syncSettled_timers (P : Platform) (a sel : String) (o : Settled Unit) (w : World) :
    w.timers <+: (syncSettled P a sel o w).timers := by
  cases o with
  | resolved u =>
    by_cases hs : sel = a <;>
      simp [syncSettled, hs, reload, issue, setStatus, setSelected, setTimeout]
  | rejected e =>
    cases hc : (prettyError e >>= jsConcat P "Sync failed: ") with
    | ok s => simp [syncSettled, hc, setStatus]
    | error t => simp [syncSettled, hc, unhandledRejection]

theorem commit_timers (before : String) (w : World) : (commit before w).timers = w.timers := by
  unfold commit runEffect
  by_cases h : w.selected = before
  · simp [h]
  · simp only [h, if_false]
    cases (Transactions.effect w.selected w.tx).2 <;> rfl

theorem resume_timers (P : Platform) (k : Pending) (r : Response) (w w1 : World)
    (h : resume P k r w = some w1) : w.timers <+: w1.timers := by
  cases k <;> cases r <;> simp only [resume, Option.some.injEq] at h <;>
    first
    | (subst h; exact ((reloadSettled_fields P _ w).2.1 ▸ List.prefix_refl _))
    | (subst h; exact (addSettled_timers P _ w ▸ List.prefix_refl _))
    | (subst h; exact (removeSettled_timers P _ _ _ w ▸ List.prefix_refl _))
    | (subst h; exact syncSettled_timers P _ _ _ w)
    | (subst h; exact List.prefix_refl _)
    | cases h

/-- C2 (counterexample). On the page of the scenario a sync succeeds at time 0 and sets its
timer; at 100 ms `remove` is called and the status is `Removing…`, still so at 799 ms. At
800 ms the timer of the sync fires: the status is empty although the `remove` request is
still in flight. -/
theorem auto_clear_counterexample :
    (run examplePlatform examplePage
        [.clickSync "1A1zP1...", .settle 0 .ack, .elapse 100, .clickRemove "1A1zP1...",
         .elapse 699]).map (fun w => (w.status, w.timers, w.now))
      = some ("Removing…", [800], 799)
    ∧ (run examplePlatform examplePage
        [.clickSync "1A1zP1...", .settle 0 .ack, .elapse 100, .clickRemove "1A1zP1...",
         .elapse 699, .elapse 1, .timer 0]).map (fun w => (w.status, w.timers, w.pending))
      = some ("", [], [.reload, .remove "1A1zP1..." ""]) := by
  exact ⟨by rfl, by rfl⟩

theorem timer_step_cases (P : Platform) (w w1 : World) (ev : Event)
    (h : step P w ev = some w1) :
    ((∀ i, ev ≠ .timer i) → w.timers <+: w1.timers)
    ∧ ∀ i, ev = .timer i →
        w1.status = "" ∧ w1.timers = w.timers.eraseIdx i
          ∧ ∃ due, w.timers[i]? = some due ∧ due ≤ w.now := by
  cases ev with
  | typeInput text =>
    simp only [step, Option.some.injEq] at h
    subst h
    exact ⟨fun _ => List.prefix_refl _, fun i hi => by cases hi⟩
  | clickAdd =>
    simp only [step, Option.some.injEq] at h
    subst h
    refine ⟨fun _ => ?_, fun i hi => by cases hi⟩
    unfold add
    by_cases hb : jsTrim w.input = ""
    · simp [hb]
    · simp [hb, issue, setStatus]
  | clickView a =>
    simp only [step, Option.some.injEq] at h
    subst h
    refine ⟨fun _ => ?_, fun i hi => by cases hi⟩
    rw [commit_timers]
    exact List.prefix_refl _
  | clickSync a =>
    simp only [step, Option.some.injEq] at h
    subst h
    exact ⟨fun _ => List.prefix_refl _, fun i hi => by cases hi⟩
  | clickRemove a =>
    simp only [step, Option.some.injEq] at h
    subst h
    exact ⟨fun _ => List.prefix_refl _, fun i hi => by cases hi⟩
  | settle i r =>
    refine ⟨fun _ => ?_, fun j hj => by cases hj⟩
    simp only [step] at h
    cases hk : w.pending[i]? with
    | none => simp [hk] at h
    | some k =>
      simp only [hk] at h
      cases hr : resume P k r { w with pending := w.pending.eraseIdx i } with
      | none => simp [hr] at h
      | some w2 =>
        simp only [hr, Option.some.injEq] at h
        subst h
        rw [commit_timers]
        exact resume_timers P k r { w with pending := w.pending.eraseIdx i } w2 hr
  | timer i =>
    refine ⟨fun hne => absurd rfl (hne i), fun j hj => ?_⟩
    cases hj
    simp only [step] at h
    cases ht : w.timers[i]? with
    | none => simp [ht] at h
    | some due =>
      simp only [ht] at h
      by_cases hd : due ≤ w.now
      · simp only [hd, if_true, Option.some.injEq] at h
        subst h
        exact ⟨rfl, rfl, due, rfl, hd⟩
      · simp [hd] at h
  | elapse ms =>
    simp only [step, Option.some.injEq] at h
    subst h
    exact ⟨fun _ => List.prefix_refl _, fun i hi => by cases hi⟩

/-- C2 (amended). The timer set by a successful sync, due 800 ms after the success, is never
cancelled. Every event other than a timer keeps all pending timers, with their due times, and
at most adds one after them; a timer fires only when it is due, and then removes itself alone
and sets the status to empty, whatever the status was and whichever operation had set it. -/
theorem timer_is_never_cancelled (P : Platform) (w w1 : World) (ev : Event)
    (h : step P w ev = some w1) :
    ((∀ i, ev ≠ .timer i) → w.timers <+: w1.timers)
    ∧ (∀ i, ev = .timer i →
        w1.status = "" ∧ w1.timers = w.timers.eraseIdx i
          ∧ ∃ due, w.timers[i]? = some due ∧ due ≤ w.now)
    ∧ ∀ i a sel, ev = .settle i .ack → w.pending[i]? = some (.sync a sel) →
        w1.timers = w.timers ++ [w.now + 800] := by
  refine ⟨?_, ?_, ?_⟩
  · exact (timer_step_cases P w w1 ev h).1
  · exact (timer_step_cases P w w1 ev h).2
  · intro i a sel hev hp
    subst hev
    obtain ⟨v, rest, hstep, _, htm, _⟩ := step_settle_sync_ack P w i a sel hp
    rw [hstep] at h
    cases h
    exact htm

/-- C2 (witness). With the timer of a sync pending, `remove` is called: the timer is still
pending afterwards. -/
theorem timer_is_never_cancelled_witness :
    step examplePlatform
        (setTimeout 800 (setStatus "Synced ✓" examplePage)) (.clickRemove "1A1zP1...")
      = some (remove "1A1zP1..." (setTimeout 800 (setStatus "Synced ✓" examplePage)))
    ∧ (setTimeout 800 (setStatus "Synced ✓" examplePage)).timers
        <+: (remove "1A1zP1..." (setTimeout 800 (setStatus "Synced ✓" examplePage))).timers :=
  ⟨rfl,
   (timer_is_never_cancelled examplePlatform
      (setTimeout 800 (setStatus "Synced ✓" examplePage))
      (remove "1A1zP1..." (setTimeout 800 (setStatus "Synced ✓" examplePage)))
      (.clickRemove "1A1zP1...") rfl).1 (fun i hi => by cases hi)⟩

/-! ## Theorems: failed operations -/

theorem concat_prettyError (P : Platform) (pre : String) (e : JsError) :
    (prettyError e >>= jsConcat P pre) = jsConcat P pre (prettyErrorValue e) := by
  rw [prettyError_eq_value]
  rfl

/-- When the request of `add`, `remove` or `sync` fails with an Error whose normalised value
has a string form `t`, the failure is caught: the status is `Error: ` (for `sync`,
`Sync failed: `) followed by `t`, the settled request leaves the requests in flight, and
nothing else changes on the page: address list, selection, input, requests issued, timers
and uncaught exceptions are what they were. -/
theorem failed_operation_keeps_state (P : Platform) (w : World) (i : Nat) (e : JsError)
    (t : String) (ht : jsToString P (prettyErrorValue e) = .ok t) :
    (w.pending[i]? = some .add →
      step P w (.settle i (.failure e))
        = some { w with pending := w.pending.eraseIdx i, status := "Error: " ++ t })
    ∧ (∀ a sel, w.pending[i]? = some (.remove a sel) →
      step P w (.settle i (.failure e))
        = some { w with pending := w.pending.eraseIdx i, status := "Error: " ++ t })
    ∧ (∀ a sel, w.pending[i]? = some (.sync a sel) →
      step P w (.settle i (.failure e))
        = some { w with pending := w.pending.eraseIdx i, status := "Sync failed: " ++ t }) := by
  refine ⟨?_, ?_, ?_⟩
  · intro h
    simp [step, h, resume, addSettled, concat_prettyError, jsConcat, ht, commit, setStatus]
  · intro a sel h
    simp [step, h, resume, removeSettled, concat_prettyError, jsConcat, ht, commit, setStatus]
  · intro a sel h
    simp [step, h, resume, syncSettled, concat_prettyError, jsConcat, ht, commit, setStatus]

/-- C8. The request of `add` fails with a response whose body is `{"error":{"toString":1}}`.
The value `prettyError` returns is the object under `error`, which has no string form, so
`'Error: ' + prettyError(e)` throws a TypeError inside the `catch` block: the exception leaves
`add` uncaught and the status stays `Adding…`. The same happens in `remove` and in `sync`. -/
theorem failure_escapes_catch :
    (run examplePlatform examplePage
        [.typeInput "1B", .clickAdd,
         .settle 0 (.failure (newError "\x7b\"error\":\x7b\"toString\":1\x7d\x7d"))]).map
      (fun w => (w.status, w.unhandled, w.input, w.pending))
      = some ("Adding…", [.typeError], "1B", [])
    ∧ (run examplePlatform examplePage
        [.clickRemove "1A1zP1...",
         .settle 0 (.failure (newError "\x7b\"error\":\x7b\"toString\":1\x7d\x7d"))]).map
      (fun w => (w.status, w.unhandled, w.pending))
      = some ("Removing…", [.typeError], [])
    ∧ (run examplePlatform examplePage
        [.clickSync "1A1zP1...",
         .settle 0 (.failure (newError "\x7b\"error\":\x7b\"toString\":1\x7d\x7d"))]).map
      (fun w => (w.status, w.unhandled, w.pending))
      = some ("Syncing…", [.typeError], []) := by
  exact ⟨by rfl, by rfl, by rfl⟩

/-! ## Theorems: selecting an address -/

theorem commit_selected (before : String) (w : World) :
    (commit before w).selected = w.selected := by
  unfold commit runEffect
  by_cases h : w.selected = before
  · simp [h]
  · simp only [h, if_false]
    cases (Transactions.effect w.selected w.tx).2 <;> rfl

theorem commit_of_selected_eq (before : String) (w : World) (h : w.selected = before) :
    commit before w = w := by
  simp [commit, h]

theorem addSettled_tx (P : Platform) (o : Settled Unit) (w : World) :
    (addSettled P o w).tx = w.tx := by
  cases o with
  | resolved u => rfl
  | rejected e =>
    cases hc : (prettyError e >>= jsConcat P "Error: ") with
    | ok s => simp [addSettled, hc, setStatus]
    | error t => simp [addSettled, hc, unhandledRejection]

theorem removeSettled_tx (P : Platform) (a sel : String) (o : Settled Unit) (w : World) :
    (removeSettled P a sel o w).tx = w.tx := by
  cases o with
  | resolved u =>
    by_cases hs : sel = a <;> simp [removeSettled, hs, reload, issue, setStatus, setSelected]
  | rejected e =>
    cases hc : (prettyError e >>= jsConcat P "Error: ") with
    | ok s => simp [removeSettled, hc, setStatus]
    | error t => simp [removeSettled, hc, unhandledRejection]

theorem syncSettled_tx (P : Platform) (a sel : String) (o : Settled Unit) (w : World) :
    (syncSettled P a sel o w).tx = w.tx := by
  cases o with
  | resolved u =>
    by_cases hs : sel = a <;>
      simp [syncSettled, hs, reload, issue, setStatus, setSelected, setTimeout]
  | rejected e =>
    cases hc : (prettyError e >>= jsConcat P "Sync failed: ") with
    | ok s => simp [syncSettled, hc, setStatus]
    | error t => simp [syncSettled, hc, unhandledRejection]

theorem reloadSettled_tx (P : Platform) (o : Settled (List Address)) (w : World) :
    (reloadSettled P o w).tx = w.tx := by
  cases o with
  | resolved l => rfl
  | rejected e =>
    cases hc : (prettyError e >>= jsConcat P "Error: ") with
    | ok s => simp [reloadSettled, hc, setStatus]
    | error t => simp [reloadSettled, hc, setStatus, unhandledRejection]

theorem resume_tx (P : Platform) (k : Pending) (r : Response) (w w1 : World)
    (h : resume P k r w = some w1) (hk : ∀ a, k ≠ .transactions a) : w1.tx = w.tx := by
  cases k with
  | transactions a => exact absurd rfl (hk a)
  | reload =>
    cases r <;> simp only [resume, Option.some.injEq] at h <;>
      first
      | (subst h; exact reloadSettled_tx P _ w)
      | cases h
  | add =>
    cases r <;> simp only [resume, Option.some.injEq] at h <;>
      first
      | (subst h; exact addSettled_tx P _ w)
      | cases h
  | remove a sel =>
    cases r <;> simp only [resume, Option.some.injEq] at h <;>
      first
      | (subst h; exact removeSettled_tx P _ _ _ w)
      | cases h
  | sync a sel =>
    cases r <;> simp only [resume, Option.some.injEq] at h <;>
      first
      | (subst h; exact syncSettled_tx P _ _ _ w)
      | cases h

/-- An event that leaves the selection as it was and is not a settled transactions request
leaves the state of `Transactions` as it was. -/
theorem step_keeps_tx (P : Platform) (v v1 : World) (ev : Event)
    (h : step P v ev = some v1) (hsel : v1.selected = v.selected)
    (hno : ∀ i r a, ev = .settle i r → v.pending[i]? ≠ some (.transactions a)) :
    v1.tx = v.tx := by
  cases ev with
  | typeInput text =>
    simp only [step, Option.some.injEq] at h
    subst h
    rfl
  | clickAdd =>
    simp only [step, Option.some.injEq] at h
    subst h
    unfold add
    by_cases hb : jsTrim v.input = ""
    · simp [hb]
    · simp [hb, issue, setStatus]
  | clickView a =>
    simp only [step, Option.some.injEq] at h
    subst h
    rw [commit_selected] at hsel
    rw [commit_of_selected_eq _ _ hsel]
    rfl
  | clickSync a =>
    simp only [step, Option.some.injEq] at h
    subst h
    rfl
  | clickRemove a =>
    simp only [step, Option.some.injEq] at h
    subst h
    rfl
  | settle i r =>
    simp only [step] at h
    cases hk : v.pending[i]? with
    | none => simp [hk] at h
    | some k =>
      simp only [hk] at h
      cases hr : resume P k r { v with pending := v.pending.eraseIdx i } with
      | none => simp [hr] at h
      | some w2 =>
        simp only [hr, Option.some.injEq] at h
        subst h
        rw [commit_selected] at hsel
        rw [commit_of_selected_eq _ _ hsel]
        exact resume_tx P k r { v with pending := v.pending.eraseIdx i } w2 hr
          (fun a ha => hno i r a rfl (by rw [hk, ha]))
  | timer i =>
    simp only [step] at h
    cases ht : v.timers[i]? with
    | none => simp [ht] at h
    | some due =>
      simp only [ht] at h
      by_cases hd : due ≤ v.now
      · simp only [hd, if_true, Option.some.injEq] at h
        subst h
        rfl
      · simp [hd] at h
  | elapse ms =>
    simp only [step, Option.some.injEq] at h
    subst h
    rfl

theorem Transactions.render_errorLine (P : Platform) (address : String) (st : TxState)
    (ha : address ≠ "") (hl : st.loading = false) (he : truthy st.error = true) :
    Transactions.render P address st = .ok (.errorLine st.error) := by
  simp [Transactions.render, ha, hl, he]

theorem Transactions.render_table (P : Platform) (address : String) (st : TxState)
    (ha : address ≠ "") (hl : st.loading = false) (he : truthy st.error = false)
    (hL : st.items ≠ [])
    (hd : ∀ t ∈ st.items, (P.dateToISOString t.timestamp).isSome = true) :
    ∃ rows, Transactions.render P address st = .ok (.table rows)
      ∧ rows.length = st.items.length
      ∧ rows.map (fun r => r.type) = st.items.map (fun t => t.type)
      ∧ rows.map (fun r => r.key) = st.items.map (fun t => t.tx_hash)
      ∧ rows.map (fun r => r.amount) = st.items.map (fun t => t.amount) := by
  obtain ⟨rows, hrows, h1, h2, h3⟩ := Transactions.rows_of_valid_dates P st.items hd
  refine ⟨rows, ?_, ?_, h1, h2, h3⟩
  · have hlen : ¬ st.items.length = 0 := by
      intro h0
      exact hL (List.length_eq_zero.mp h0)
    simp [Transactions.render, ha, hl, he, hlen, hrows]
  · have := congrArg List.length h1
    simpa using this

/-- C9 (counterexample). First run: `1A` then `1B` are selected, the request for `1A` fails
with `no such address`, then the request for `1B` succeeds with one transaction and no other
selection has intervened: the error is not empty and the view is the error line, not the
table. Second run: `1A` is selected and loaded, and selecting it again issues no request and
does not set the loading flag. Third run: a transaction whose timestamp is no date makes the
render throw. -/
theorem select_shows_stale_error :
    (run examplePlatform World.init
        [.settle 0 (.addresses [⟨"1A", "0.5"⟩, ⟨"1B", "0"⟩]), .clickView "1A", .clickView "1B",
         .settle 0 (.failure (newError "\x7b\"error\":\"no such address\"\x7d")),
         .settle 0 (.transactions [⟨"abc", "2024-01-01T00:00:00Z", "incoming", "0.5"⟩])]).map
      (fun w => (w.selected, w.tx.loading, w.tx.items, w.tx.error,
        Transactions.render examplePlatform w.selected w.tx))
      = some ("1B", false, [⟨"abc", "2024-01-01T00:00:00Z", "incoming", "0.5"⟩],
          .str "no such address", .ok (.errorLine (.str "no such address")))
    ∧ (run examplePlatform World.init
        [.settle 0 (.addresses [⟨"1A", "0.5"⟩]), .clickView "1A", .settle 0 (.transactions []),
         .clickView "1A"]).map (fun w => (w.sent.length, w.tx.loading, w.pending))
      = some (2, false, [])
    ∧ (run examplePlatform World.init
        [.settle 0 (.addresses [⟨"1A", "0.5"⟩]), .clickView "1A",
         .settle 0 (.transactions [⟨"abc", "not a date", "incoming", "0.5"⟩])]).map
      (fun w => Transactions.render examplePlatform w.selected w.tx)
      = some (.error .rangeError) := by
  exact ⟨by rfl, by rfl, by rfl⟩

/-- C9 (amended). Selecting a non-empty address that was not selected sets the loading flag,
clears the error and issues exactly one request, a GET to `/transactions/` followed by the
percent-encoded address. Until that request settles, every event that leaves the selection as
it is and is not a settled transactions request leaves the component's state as it is. When
the request succeeds with a list `L`, on any page where it is in flight, the loading flag is
cleared, the items are `L` and the error is left as it was: with the selection still that
address, a non-empty error (that of a transactions request that failed meanwhile) is rendered
as the error line; with an empty error, `L` not empty and timestamps that are valid dates,
the render is a table with one row per element of `L`, in order, each with that element's
type, hash and amount. When the response is the next event after the selection, the error is
empty. -/
theorem select_loads_transactions (P : Platform) (w : World) (address : String)
    (L : List Transaction) (ha : address ≠ "") (hsel : w.selected ≠ address) :
    (∃ w1 w2 : World,
      step P w (.clickView address) = some w1
      ∧ w1.selected = address ∧ w1.tx.loading = true ∧ w1.tx.error = .str ""
      ∧ w1.sent = w.sent ++ [⟨.GET, "/transactions/" ++ encodeURIComponent address, none⟩]
      ∧ w1.pending = w.pending ++ [.transactions address]
      ∧ step P w1 (.settle w.pending.length (.transactions L)) = some w2
      ∧ w2.selected = address ∧ w2.tx.loading = false ∧ w2.tx.error = .str ""
      ∧ w2.tx.items = L ∧ w2.sent = w1.sent ∧ w2.pending = w.pending
      ∧ (L ≠ [] → (∀ t ∈ L, (P.dateToISOString t.timestamp).isSome = true) →
          ∃ rows, Transactions.render P w2.selected w2.tx = .ok (.table rows)
            ∧ rows.length = L.length
            ∧ rows.map (fun r => r.type) = L.map (fun t => t.type)
            ∧ rows.map (fun r => r.key) = L.map (fun t => t.tx_hash)
            ∧ rows.map (fun r => r.amount) = L.map (fun t => t.amount)))
    ∧ (∀ (v v1 : World) (ev : Event), step P v ev = some v1 → v1.selected = v.selected →
        (∀ i r a, ev = .settle i r → v.pending[i]? ≠ some (.transactions a)) →
        v1.tx = v.tx)
    ∧ (∀ (v : World) (i : Nat), v.pending[i]? = some (.transactions address) →
        ∃ v2, step P v (.settle i (.transactions L)) = some v2
          ∧ v2.selected = v.selected ∧ v2.sent = v.sent
          ∧ v2.pending = v.pending.eraseIdx i
          ∧ v2.tx.loading = false ∧ v2.tx.items = L ∧ v2.tx.error = v.tx.error
          ∧ (v.selected = address → truthy v.tx.error = true →
              Transactions.render P v2.selected v2.tx = .ok (.errorLine v.tx.error))
          ∧ (v.selected = address → truthy v.tx.error = false → L ≠ [] →
              (∀ t ∈ L, (P.dateToISOString t.timestamp).isSome = true) →
              ∃ rows, Transactions.render P v2.selected v2.tx = .ok (.table rows)
                ∧ rows.length = L.length
                ∧ rows.map (fun r => r.type) = L.map (fun t => t.type)
                ∧ rows.map (fun r => r.key) = L.map (fun t => t.tx_hash)
                ∧ rows.map (fun r => r.amount) = L.map (fun t => t.amount)))
    ∧ encodeURIComponent "1A1zP1..." = "1A1zP1..."
    ∧ encodeURIComponent "1A/b c?é" = "1A%2Fb%20c%3F%C3%A9" := by
  have hsettle : ∀ (v : World) (i : Nat), v.pending[i]? = some (.transactions address) →
      step P v (.settle i (.transactions L))
        = some { v with pending := v.pending.eraseIdx i
                        tx := { v.tx with items := L, loading := false } } := by
    intro v i hv
    have hs := step_settle_transactions P v i address (.resolved L) hv
    simp only [transactionsResponse, Transactions.settled_resolved] at hs
    exact hs
  refine ⟨?_, ?_, ?_, by rfl, by rfl⟩
  · refine ⟨_, { w with selected := address
                        tx := { w.tx with loading := false, error := .str "", items := L }
                        sent := w.sent ++ [api.transactions address] },
      step_clickView P w address hsel ha, rfl, rfl, rfl, rfl, rfl, ?_, rfl, rfl, rfl, rfl, rfl,
      rfl, ?_⟩
    · rw [hsettle _ _ (getElem?_append_length _ _ _)]
      simp [eraseIdx_concat_length]
    · intro hL hd
      exact Transactions.render_table P address
        { w.tx with loading := false, error := .str "", items := L } ha rfl rfl hL hd
  · intro v v1 ev h hs hno
    exact step_keeps_tx P v v1 ev h hs hno
  · intro v i hv
    refine ⟨_, hsettle v i hv, rfl, rfl, rfl, rfl, rfl, rfl, ?_, ?_⟩
    · intro hva he
      have ha2 : v.selected ≠ "" := by rw [hva]; exact ha
      exact Transactions.render_errorLine P v.selected
        { v.tx with items := L, loading := false } ha2 rfl he
    · intro hva he hL hd
      have ha2 : v.selected ≠ "" := by rw [hva]; exact ha
      exact Transactions.render_table P v.selected
        { v.tx with items := L, loading := false } ha2 rfl he hL hd

/-- C9 (witness). The scenario of the specification: on the page that lists `1A1zP1...`,
selecting it issues `GET /transactions/1A1zP1...`, and the response with one incoming
transaction, the next event, renders one row whose type is `incoming`. -/
theorem select_loads_transactions_witness :
    (("1A1zP1..." : String) ≠ "" ∧ examplePage.selected ≠ "1A1zP1...")
    ∧ ∃ (w1 w2 : World) (rows : List TxRow),
      step examplePlatform examplePage (.clickView "1A1zP1...") = some w1
      ∧ w1.sent = examplePage.sent ++ [⟨.GET, "/transactions/1A1zP1...", none⟩]
      ∧ step examplePlatform w1
          (.settle 0 (.transactions [⟨"abc", "2024-01-01T00:00:00Z", "incoming", "0.5"⟩]))
          = some w2
      ∧ w2.tx.items = [⟨"abc", "2024-01-01T00:00:00Z", "incoming", "0.5"⟩]
      ∧ w2.tx.loading = false ∧ w2.tx.error = .str ""
      ∧ Transactions.render examplePlatform w2.selected w2.tx = .ok (.table rows)
      ∧ rows.map (fun r => r.type) = ["incoming"] :=
  ⟨⟨by decide, by decide⟩, by
    obtain ⟨w1, w2, h1, _, _, _, hsent, _, h2, _, hload, herr, hitems, _, _, hrender⟩ :=
      (select_loads_transactions examplePlatform examplePage "1A1zP1..."
        [⟨"abc", "2024-01-01T00:00:00Z", "incoming", "0.5"⟩] (by decide) (by decide)).1
    obtain ⟨rows, hr, _, htype, _⟩ := hrender (by decide) (by
      intro t ht
      rw [List.mem_singleton] at ht
      subst ht
      rfl)
    exact ⟨w1, w2, rows, h1, hsent, h2, hitems, hload, herr, hr, htype⟩⟩

end CoinTracker
